import Mathlib

/-!
Verification of the polytop polymer-extension code (`polytop/polymer.py`)
against its specification.

The embedding models a molecular topology as a list of atoms (identified by
`atom_id`, unique by invariant 4 of the spec) together with a list of bonds
whose endpoints are atom ids.  The collaborator modules `topology.py`,
`bonds.py`, `junction.py` and `monomer.py` are not part of the repository
snapshot; their operations (`copy`, `renumber_atoms`, `max_atom_index`,
`renumber_atom_indexes`, `add`, `get_bond`, `remove_atom`, the net-charge
accessor pair) are modelled from the spec's §3/§4.1 descriptions, with a
`Modelled from the spec:` note on each.  `polymer.py` itself is translated
statement by statement.

Python's `set` of atom objects becomes a `Finset` of atom ids; Python object
identity coincides with `atom_id` equality because ids are unique.  The
unbounded recursion of `Polymer.DFS` becomes a fuel-indexed recursion; fuel
equal to the number of atoms is proved sufficient, which is exactly the
"recursion depth is bounded by the number of atoms" part of the spec.
`random.choice` becomes selection by an arbitrary `pick : Nat` taken modulo
the number of candidates; `random.choice` on an empty list raises
`IndexError`, which the model keeps.
-/

namespace Polytop

/-- An atom record (spec §3).  `atom_id` identifies the atom inside a
topology; `partial_charge` and `mass` are modelled as rationals. -/
structure Atom where
  atom_id : Nat
  atom_type : String
  atom_index : Nat
  residue_id : Nat
  residue_name : String
  atom_name : String
  charge_group_num : Nat
  partial_charge : ℚ
  mass : ℚ
  deriving DecidableEq

/-- Modelled from the spec: `bonds.py` is not in the snapshot.  A bond is an
ordered pair of atom ids plus `bond_type`, `bond_length`, `force_constant`
(spec §3); the `order` field is never touched by `polymer.py` and is
omitted. -/
structure Bond where
  atom_a : Nat
  atom_b : Nat
  bond_type : Nat
  bond_length : ℚ
  force_constant : ℚ
  deriving DecidableEq

/-- Modelled from the spec: `junction.py` is not in the snapshot.  A junction
is a name together with its location bond (spec §3). -/
structure Junction where
  name : String
  location : Bond
  deriving DecidableEq

/-- Modelled from the spec: a topology owns the atom collection and the bond
collection (spec §3).  Angles, dihedrals, pairs and exclusions are derived
views over the bond set (spec §9) and are not mentioned by any claim, so the
model carries atoms and bonds. -/
structure Topology where
  atoms : List Atom
  bonds : List Bond
  deriving DecidableEq

/-- Modelled from the spec: a monomer is a topology plus its junction
markers (spec §2). -/
structure Monomer where
  topology : Topology
  junctions : List Junction
  deriving DecidableEq

/-- A polymer owns one topology plus a working set of junctions
(`polymer.py`, `Polymer.__init__`). -/
structure Polymer where
  topology : Topology
  junctions : List Junction
  deriving DecidableEq

/-- The list of atom ids of a topology, in atom order. -/
def Topology.atomIds (t : Topology) : List Nat :=
  t.atoms.map (fun a => a.atom_id)

/-- The neighbours of atom id `x` in a bond list: the other endpoint of every
bond mentioning `x`.  This is `Atom.bond_neighbours()` of the source, read
off the bond back-references (spec §3). -/
def bondNeighbours (bonds : List Bond) (x : Nat) : List Nat :=
  bonds.foldr
    (fun b acc =>
      if b.atom_a = x then b.atom_b :: acc
      else if b.atom_b = x then b.atom_a :: acc
      else acc)
    []

/-- Modelled from the spec: the net-charge getter sums all partial charges
(spec §3, "netcharge accessor computed as the sum of all atom partial
charges"); `Polymer.extend` reads it as `topology.charge`. -/
def Topology.charge (t : Topology) : ℚ :=
  (t.atoms.map (fun a => a.partial_charge)).sum

/-- Modelled from the spec: the net-charge setter scales every partial charge
proportionally so that the new sum equals the requested value (spec §3/§4.1).
Scaling by `target / current` realises that; when the current sum is zero no
scale factor exists (Lean's division by zero makes every charge zero). -/
def Topology.setCharge (t : Topology) (target : ℚ) : Topology :=
  { t with
    atoms := t.atoms.map
      (fun a => { a with partial_charge := a.partial_charge * (target / t.charge) }) }

/-- Translation of `Polymer.DFS`, fuel-indexed: visit `atom` (add it to
`visited`), then walk its neighbour list, recursing on every neighbour that
is not the excluded barrier atom and has not been visited yet — Python's
`for neighbor in atom.bond_neighbours(): if neighbor is not exclude and
neighbor not in visited: self.DFS(neighbor, visited, exclude)`.  Each
recursive call spends one unit of fuel, so `fuel` bounds the recursion
depth; fuel equal to the number of atoms is proved sufficient below, and the
result is the barrier-excluded reachable set. -/
def Polymer.DFS (bonds : List Bond) (exclude : Option Nat) :
    Nat → Nat → Finset Nat → Finset Nat
  | 0, atom, visited => insert atom visited
  | fuel + 1, atom, visited =>
      (bondNeighbours bonds atom).foldl
        (fun vis nb =>
          if some nb ≠ exclude ∧ nb ∉ vis then Polymer.DFS bonds exclude fuel nb vis else vis)
        (insert atom visited)

/-- The neighbour loop of `Polymer.DFS` at a given recursion depth, named
for the proofs: `Polymer.DFS bonds exclude (fuel + 1) atom visited`
unfolds to `DFSlist bonds exclude fuel (bondNeighbours bonds atom)
(insert atom visited)`. -/
def Polymer.DFSlist (bonds : List Bond) (exclude : Option Nat) (fuel : Nat)
    (l : List Nat) (visited : Finset Nat) : Finset Nat :=
  l.foldl
    (fun vis nb =>
      if some nb ≠ exclude ∧ nb ∉ vis then Polymer.DFS bonds exclude fuel nb vis else vis)
    visited

/-- Barrier-excluded reachability: a walk along bonds from `a` to `x` whose
atoms after `a` all differ from the excluded barrier atom.  This is the
specification-side meaning of one reachability search of `extend`
(spec §4.2 step 3). -/
inductive ReachAvoid (bonds : List Bond) (exclude : Option Nat) (a : Nat) : Nat → Prop where
  | refl : ReachAvoid bonds exclude a a
  | tail {b c : Nat} : ReachAvoid bonds exclude a b →
      c ∈ bondNeighbours bonds b → some c ≠ exclude → ReachAvoid bonds exclude a c

/-- Whether a bond joins the unordered atom-id pair (x, y). -/
def Bond.connects (b : Bond) (x y : Nat) : Prop :=
  (b.atom_a = x ∧ b.atom_b = y) ∨ (b.atom_a = y ∧ b.atom_b = x)

instance (b : Bond) (x y : Nat) : Decidable (b.connects x y) := by
  unfold Bond.connects
  infer_instance

/-- The bond list with every bond between `x` and `y` removed: the graph in
which the junction bond has been cut, used to state the bridge assumption
of spec §4.2. -/
def removeEdge (bonds : List Bond) (x y : Nat) : List Bond :=
  bonds.filter (fun b => decide (¬ b.connects x y))

/-- The junction bond (x, y) is a bridge: after cutting it, its endpoints
are no longer connected (spec §4.2 "assumes the junction bond is a true
bridge"). -/
def IsBridge (bonds : List Bond) (x y : Nat) : Prop :=
  ¬ ReachAvoid (removeEdge bonds x y) none x y

/-- Python's `max(atom.atom_id for atom in self.topology.atoms)`; the value
is only used when the atom list is nonempty (on an empty list Python raises
`ValueError`, which `extendAux` models separately). -/
def Topology.maxAtomId (t : Topology) : Nat :=
  (t.atoms.map (fun a => a.atom_id)).foldr max 0

/-- Modelled from the spec: `max_atom_index()` returns the per-element-type
running index ceiling (spec §4.1); this is its value at one type. -/
def Topology.maxAtomIndex (t : Topology) (ty : String) : Nat :=
  ((t.atoms.filter (fun a => decide (a.atom_type = ty))).map (fun a => a.atom_index)).foldr max 0

/-- The keys of `max_atom_index()`: the atom types present in the topology,
in first-occurrence order (Python dict insertion order). -/
def Topology.atomTypes (t : Topology) : List String :=
  (t.atoms.map (fun a => a.atom_type)).dedup

/-- Sequential reassignment of atom ids from `start`, preserving order. -/
def renumberAtomsList (start : Nat) : List Atom → List Atom
  | [] => []
  | a :: rest => { a with atom_id := start } :: renumberAtomsList (start + 1) rest

/-- The old-id to new-id translation of `renumber_atoms`: the atom at
position `i` keeps its identity and gets id `start + i`. -/
def Topology.renumMap (t : Topology) (start : Nat) (oid : Nat) : Nat :=
  if oid ∈ t.atomIds then start + t.atomIds.indexOf oid else oid

/-- Modelled from the spec: `renumber_atoms(start_id)` reassigns `atom_id`
sequentially starting at `start_id`, preserving relative order and updating
every reference (spec §4.1). -/
def Topology.renumber_atoms (t : Topology) (start : Nat) : Topology :=
  { atoms := renumberAtomsList start t.atoms,
    bonds := t.bonds.map (fun b =>
      { b with atom_a := t.renumMap start b.atom_a, atom_b := t.renumMap start b.atom_b }) }

/-- The renumbering applied to a junction marker.  In Python the junction's
location aliases a bond of the topology, so renumbering the topology updates
it; the value embedding applies the same translation map explicitly. -/
def renumJunction (t : Topology) (start : Nat) (j : Junction) : Junction :=
  { j with location := { j.location with
      atom_a := t.renumMap start j.location.atom_a,
      atom_b := t.renumMap start j.location.atom_b } }

/-- Renumbering of a monomer clone: topology and (aliased) junction
locations. -/
def Monomer.renumber_atoms (m : Monomer) (start : Nat) : Monomer :=
  { topology := m.topology.renumber_atoms start,
    junctions := m.junctions.map (renumJunction m.topology start) }

/-- Sequential reassignment of `atom_index` over the atoms of one element
type, starting at `base`, preserving intra-type order; other atoms are left
alone. -/
def renumberAtomIndexesList (ty : String) : Nat → List Atom → List Atom
  | _, [] => []
  | base, a :: rest =>
      if a.atom_type = ty then
        { a with atom_index := base } :: renumberAtomIndexesList ty (base + 1) rest
      else
        a :: renumberAtomIndexesList ty base rest

/-- Modelled from the spec: `renumber_atom_indexes` reassigns `atom_index`
per element type starting from the given base, preserving intra-type order
(spec §4.1); `extend` passes base = per-type maximum + 1. -/
def Topology.renumber_atom_indexes (t : Topology) (ty : String) (base : Nat) : Topology :=
  { t with atoms := renumberAtomIndexesList ty base t.atoms }

/-- The per-type index renumbering loop of `extend` (polymer.py lines
61-65): `max_atom_index()` is computed once on the polymer, then each type
present in the polymer is renumbered in the clone from its maximum + 1. -/
def renumberIndexLoop (pt : Topology) (m : Monomer) : Monomer :=
  pt.atomTypes.foldl
    (fun acc ty =>
      { acc with topology := acc.topology.renumber_atom_indexes ty (pt.maxAtomIndex ty + 1) })
    m

/-- Modelled from the spec: `copy()` is a deep, independent clone with
identical values (spec §4.1); the deep copy of a value is the value
itself. -/
def Monomer.copy (m : Monomer) : Monomer := m

/-- Translation of `Polymer.__init__`: copy the monomer and take its
topology and junctions. -/
def Polymer.ofMonomer (monomer : Monomer) : Polymer :=
  let new_monomer := monomer.copy
  { topology := new_monomer.topology, junctions := new_monomer.junctions }

/-- Translation of `Polymer.has_junction`. -/
def Polymer.has_junction (p : Polymer) (name : String) : Bool :=
  p.junctions.any (fun junction => junction.name == name)

/-- Modelled from the spec: `add` is the structural union appending all of
the other topology's atoms and entities, without renumbering (spec §4.1). -/
def Topology.add (t other : Topology) : Topology :=
  { atoms := t.atoms ++ other.atoms, bonds := t.bonds ++ other.bonds }

/-- Modelled from the spec: `get_bond` is the exact-match lookup by
unordered atom-id pair (spec §4.1), returning the first match. -/
def Topology.get_bond (t : Topology) (x y : Nat) : Option Bond :=
  t.bonds.find? (fun b => decide (b.connects x y))

/-- Modelled from the spec: `remove_atom` removes the atom and, cascading,
every entity mentioning it (spec §4.1).  `extend` removes every atom of a
discard set in a loop; removal is by membership, so the loop in any
iteration order is the filter by non-membership. -/
def Topology.removeAtoms (t : Topology) (s : Finset Nat) : Topology :=
  { atoms := t.atoms.filter (fun a => decide (a.atom_id ∉ s)),
    bonds := t.bonds.filter (fun b => decide (b.atom_a ∉ s ∧ b.atom_b ∉ s)) }

/-- The prepare phase of `extend` (polymer.py lines 55-65): clone the
monomer, renumber its atom ids above the polymer's maximum, renumber its
per-type atom indexes above the polymer's per-type maxima. -/
def preparedMonomer (p : Polymer) (monomer : Monomer) : Monomer :=
  renumberIndexLoop p.topology ((monomer.copy).renumber_atoms (p.topology.maxAtomId + 1))

/-- The to-junction selection of `extend` (line 68): the first junction of
the (prepared) clone whose name matches. -/
def selectedToJunction (p : Polymer) (monomer : Monomer) (to_junction_name : String) :
    Option Junction :=
  (preparedMonomer p monomer).junctions.find? (fun j => j.name == to_junction_name)

/-- The candidate list for the from-junction choice (line 79). -/
def fromCandidates (p : Polymer) (from_junction_name : String) : List Junction :=
  p.junctions.filter (fun j => j.name == from_junction_name)

/-- The from-junction selection (line 79): `random.choice` picks an element
of the candidate list, modelled by an arbitrary `pick` taken modulo the
length; on an empty list `random.choice` raises `IndexError`, modelled by
`none`. -/
def selectedFromJunction (p : Polymer) (from_junction_name : String) (pick : Nat) :
    Option Junction :=
  match fromCandidates p from_junction_name with
  | [] => none
  | c :: cs => some ((c :: cs).getD (pick % (cs.length + 1)) c)

/-- The monomer-side discard set (lines 75-76): depth-first search of the
clone from `to_junction.location.atom_a` with `atom_b` excluded. -/
def discardMonomerSet (nm : Monomer) (to_junction : Junction) : Finset Nat :=
  Polymer.DFS nm.topology.bonds (some to_junction.location.atom_b)
    nm.topology.atoms.length to_junction.location.atom_a ∅

/-- The polymer-side discard set (lines 86-87): depth-first search of the
polymer from `from_junction.location.atom_b` with `atom_a` excluded. -/
def discardPolymerSet (p : Polymer) (from_junction : Junction) : Finset Nat :=
  Polymer.DFS p.topology.bonds (some from_junction.location.atom_a)
    p.topology.atoms.length from_junction.location.atom_b ∅

/-- The Python exceptions `extend` and `from_dict` can raise. -/
inductive PyError where
  | valueError (msg : String)
  | indexError
  | typeError
  deriving DecidableEq

/-- Outcome of a call to `extend`: a normal return with the new polymer
state, or a raised exception carrying the polymer state at the raise point
(which is how "no partial mutation" is expressed in a value embedding). -/
inductive ExtendResult where
  | ok (result : Polymer)
  | raised (e : PyError) (state : Polymer)
  deriving DecidableEq

/-- The success path of `extend` (polymer.py lines 75-106) once both
junctions are selected and consumed: run the two discard searches, merge the
topologies, re-register the remaining clone junctions (looked up by id in
the merged topology), append the new junction bond, and remove both discard
sets (cascading).  `nm` is the prepared clone with the consumed to-junction
already erased. -/
def extendSuccess (p : Polymer) (nm : Monomer) (to_junction from_junction : Junction) :
    Polymer :=
  let discard_from_monomer := discardMonomerSet nm to_junction
  let polymer_junctions := p.junctions.erase from_junction
  let discard_from_polymer := discardPolymerSet p from_junction
  let merged := p.topology.add nm.topology
  let registered := nm.junctions.map (fun j =>
    Junction.mk j.name
      ((merged.get_bond j.location.atom_a j.location.atom_b).getD j.location))
  let with_bond : Topology :=
    { merged with bonds := merged.bonds ++
        [Bond.mk from_junction.location.atom_a to_junction.location.atom_b 1 1 1] }
  let after_removal :=
    (with_bond.removeAtoms discard_from_monomer).removeAtoms discard_from_polymer
  { topology := after_removal, junctions := polymer_junctions ++ registered }

/-- The prepared clone with the consumed to-junction erased (polymer.py
line 72). -/
def consumedMonomer (p : Polymer) (monomer : Monomer) (to_junction : Junction) : Monomer :=
  { preparedMonomer p monomer with
    junctions := (preparedMonomer p monomer).junctions.erase to_junction }

/-- Translation of `Polymer.extend` (polymer.py lines 41-106) up to the
optional charge step: prepare the clone, select and consume the junctions
(raising on a missing name, with the polymer still untouched), then the
success path. -/
def Polymer.extendAux (p : Polymer) (monomer : Monomer)
    (from_junction_name to_junction_name : String) (pick : Nat) : ExtendResult :=
  if p.topology.atoms.isEmpty then
    .raised (.valueError "max() arg is an empty sequence") p
  else
    match selectedToJunction p monomer to_junction_name with
    | none =>
        .raised (.valueError ("No junction named " ++ to_junction_name ++ " found in the monomer")) p
    | some to_junction =>
        match selectedFromJunction p from_junction_name pick with
        | none => .raised .indexError p
        | some from_junction =>
            .ok (extendSuccess p (consumedMonomer p monomer to_junction) to_junction from_junction)

/-- Translation of `Polymer.extend` including the `keep_charge` step: the
monomer and polymer net charges are read before any other work (lines
51-53), and on success with `keep_charge` the merged topology's net charge
is set to their sum through the proportional-scaling setter (lines
108-110). -/
def Polymer.extend (p : Polymer) (monomer : Monomer)
    (from_junction_name to_junction_name : String) (keep_charge : Bool) (pick : Nat) :
    ExtendResult :=
  let monomer_charge := monomer.topology.charge
  let polymer_charge := p.topology.charge
  match p.extendAux monomer from_junction_name to_junction_name pick with
  | .ok q =>
      if keep_charge then
        .ok { q with topology := q.topology.setCharge (monomer_charge + polymer_charge) }
      else .ok q
  | r => r

/-- The observable state of the caller's monomer argument after
`Polymer.extend` returns or raises.  Every statement of `extend` either
reads the monomer (the charge read of line 52, the `copy()` of line 56) or
mutates `self` or the clone `new_monomer = monomer.copy()`; with `copy` a
deep clone (spec §4.1) no mutation reaches the caller's object, so its
post-state is its pre-state. -/
def monomerAfterExtend (p : Polymer) (monomer : Monomer)
    (from_junction_name to_junction_name : String) (keep_charge : Bool) (pick : Nat) :
    Monomer :=
  let _result := p.extend monomer from_junction_name to_junction_name keep_charge pick
  monomer

/-- Modelled from the spec: the persisted structured form is a structural
snapshot of topology and junction set (spec §6).  `Topology.to_dict` and
`Junctions.to_dict` are not in the snapshot, so the nested document is
modelled as the values themselves — the best case for the round trip. -/
structure PolymerDict where
  topology : Topology
  junctions : List Junction
  deriving DecidableEq

/-- Translation of `Polymer.to_dict` (lines 125-138). -/
def Polymer.to_dict (p : Polymer) : PolymerDict :=
  { topology := p.topology, junctions := p.junctions }

/-- The parameter names of `Polymer.__init__` (line 14): only `monomer`. -/
def polymerInitParams : List String := ["monomer"]

/-- The keyword arguments of the `cls(...)` call inside `Polymer.from_dict`
(lines 154-157). -/
def fromDictCallKeywords : List String := ["topology", "junctions"]

/-- Translation of `Polymer.from_dict` (lines 140-157): rebuild the
topology and junction set, then call `cls(topology=..., junctions=...)`.
A Python call raises `TypeError` when a keyword argument is not among the
callee's parameter names; `Polymer.__init__` accepts only `monomer`. -/
def Polymer.from_dict (data : PolymerDict) : Except PyError Polymer :=
  let new_topology := data.topology
  let new_junctions := data.junctions
  if fromDictCallKeywords.all (fun k => polymerInitParams.contains k) then
    .ok { topology := new_topology, junctions := new_junctions }
  else
    .error .typeError

/-- Well-formedness of an `extend` call: nonempty polymer, unique atom ids
on both sides (spec invariant 4), bonds referencing present atoms (spec
invariant 1), junction locations referencing present, distinct atoms, and
both junction names present (a successful lookup). -/
def ValidInput (p : Polymer) (monomer : Monomer)
    (from_junction_name to_junction_name : String) : Prop :=
  p.topology.atoms ≠ [] ∧
  p.topology.atomIds.Nodup ∧
  monomer.topology.atomIds.Nodup ∧
  (∀ b ∈ p.topology.bonds, b.atom_a ∈ p.topology.atomIds ∧ b.atom_b ∈ p.topology.atomIds) ∧
  (∀ b ∈ monomer.topology.bonds,
    b.atom_a ∈ monomer.topology.atomIds ∧ b.atom_b ∈ monomer.topology.atomIds) ∧
  (∀ j ∈ p.junctions, j.location.atom_a ∈ p.topology.atomIds ∧
    j.location.atom_b ∈ p.topology.atomIds ∧ j.location.atom_a ≠ j.location.atom_b) ∧
  (∀ j ∈ monomer.junctions, j.location.atom_a ∈ monomer.topology.atomIds ∧
    j.location.atom_b ∈ monomer.topology.atomIds ∧ j.location.atom_a ≠ j.location.atom_b) ∧
  (∃ j ∈ monomer.junctions, j.name = to_junction_name) ∧
  (∃ j ∈ p.junctions, j.name = from_junction_name)

instance (p : Polymer) (monomer : Monomer) (fn tn : String) :
    Decidable (ValidInput p monomer fn tn) := by
  unfold ValidInput
  infer_instance

/-- Spec invariant 1 relative to an atom-id universe: every bond references
only atoms of `S`. -/
def BondsClosed (bonds : List Bond) (S : Finset Nat) : Prop :=
  ∀ b ∈ bonds, b.atom_a ∈ S ∧ b.atom_b ∈ S

instance (bonds : List Bond) (S : Finset Nat) : Decidable (BondsClosed bonds S) := by
  unfold BondsClosed
  infer_instance

/-- A concrete atom for the witness examples. -/
def mkAtom (id : Nat) (ty : String) (idx : Nat) (q : ℚ) : Atom :=
  { atom_id := id, atom_type := ty, atom_index := idx, residue_id := 1,
    residue_name := "RES", atom_name := ty, charge_group_num := 1,
    partial_charge := q, mass := 1 }

/-- A concrete bond for the witness examples. -/
def sampleBond (x y : Nat) : Bond :=
  { atom_a := x, atom_b := y, bond_type := 1, bond_length := 1, force_constant := 1 }

/-- A two-atom polymer with one junction "A" whose kept side is atom 1. -/
def samplePolymer : Polymer :=
  { topology := { atoms := [mkAtom 1 "C" 1 1, mkAtom 2 "H" 1 2], bonds := [sampleBond 1 2] },
    junctions := [{ name := "A", location := sampleBond 1 2 }] }

/-- A two-atom monomer with one junction "B" whose kept side is atom 2. -/
def sampleMonomer : Monomer :=
  { topology := { atoms := [mkAtom 1 "C" 1 1, mkAtom 2 "O" 1 1], bonds := [sampleBond 1 2] },
    junctions := [{ name := "B", location := sampleBond 1 2 }] }

/-- The polymer that extending `samplePolymer` with `sampleMonomer` at
junctions "A"/"B" produces (before any charge adjustment): kept atoms 1
and 4, joined by the new default bond. -/
def sampleExtended : Polymer :=
  { topology := { atoms := [mkAtom 1 "C" 1 1,
      { mkAtom 2 "O" 1 1 with atom_id := 4 }], bonds := [sampleBond 1 4] },
    junctions := [] }

lemma bondNeighbours_cons (b : Bond) (bonds : List Bond) (a : Nat) :
    bondNeighbours (b :: bonds) a =
      if b.atom_a = a then b.atom_b :: bondNeighbours bonds a
      else if b.atom_b = a then b.atom_a :: bondNeighbours bonds a
      else bondNeighbours bonds a := by
  simp only [bondNeighbours, List.foldr_cons]

lemma mem_bondNeighbours {bonds : List Bond} {a x : Nat} :
    x ∈ bondNeighbours bonds a ↔ ∃ b ∈ bonds, b.connects a x := by
  induction bonds with
  | nil => simp [bondNeighbours, Bond.connects]
  | cons b rest ih =>
      rw [bondNeighbours_cons]
      by_cases h1 : b.atom_a = a
      · simp only [h1, if_true, List.mem_cons, ih]
        constructor
        · rintro (rfl | ⟨b', hb', hc⟩)
          · exact ⟨b, by simp, Or.inl ⟨h1, rfl⟩⟩
          · exact ⟨b', by simp [hb'], hc⟩
        · rintro ⟨b', hb', hc⟩
          rcases hb' with rfl | hb'
          · rcases hc with ⟨-, rfl⟩ | ⟨rfl, hba⟩
            · exact Or.inl rfl
            · exact Or.inl (h1.trans hba.symm)
          · exact Or.inr ⟨b', hb', hc⟩
      · by_cases h2 : b.atom_b = a
        · simp only [h1, h2, if_false, if_true, List.mem_cons, ih]
          constructor
          · rintro (rfl | ⟨b', hb', hc⟩)
            · exact ⟨b, by simp, Or.inr ⟨rfl, h2⟩⟩
            · exact ⟨b', by simp [hb'], hc⟩
          · rintro ⟨b', hb', hc⟩
            rcases hb' with rfl | hb'
            · rcases hc with ⟨hba, rfl⟩ | ⟨rfl, -⟩
              · exact absurd hba h1
              · exact Or.inl rfl
            · exact Or.inr ⟨b', hb', hc⟩
        · simp only [h1, h2, if_false, ih]
          constructor
          · rintro ⟨b', hb', hc⟩
            exact ⟨b', by simp [hb'], hc⟩
          · rintro ⟨b', hb', hc⟩
            rcases List.mem_cons.mp hb' with rfl | hb'
            · rcases hc with ⟨hba, -⟩ | ⟨-, hbb⟩
              · exact absurd hba h1
              · exact absurd hbb h2
            · exact ⟨b', hb', hc⟩

lemma Bond.connects_symm {b : Bond} {x y : Nat} (h : b.connects x y) : b.connects y x := by
  rcases h with ⟨h1, h2⟩ | ⟨h1, h2⟩
  · exact Or.inr ⟨h1, h2⟩
  · exact Or.inl ⟨h1, h2⟩

lemma bondNeighbours_symm {bonds : List Bond} {a x : Nat}
    (h : x ∈ bondNeighbours bonds a) : a ∈ bondNeighbours bonds x := by
  rcases mem_bondNeighbours.mp h with ⟨b, hb, hc⟩
  exact mem_bondNeighbours.mpr ⟨b, hb, b.connects_symm hc⟩

lemma mem_of_bondNeighbours {bonds : List Bond} {S : Finset Nat}
    (hclosed : BondsClosed bonds S) {a x : Nat} (h : x ∈ bondNeighbours bonds a) : x ∈ S := by
  rcases mem_bondNeighbours.mp h with ⟨b, hb, hc⟩
  rcases hc with ⟨-, rfl⟩ | ⟨rfl, -⟩
  · exact (hclosed b hb).2
  · exact (hclosed b hb).1

lemma DFS_zero (bonds : List Bond) (exclude : Option Nat) (atom : Nat) (visited : Finset Nat) :
    Polymer.DFS bonds exclude 0 atom visited = insert atom visited := rfl

lemma DFS_succ (bonds : List Bond) (exclude : Option Nat) (fuel atom : Nat)
    (visited : Finset Nat) :
    Polymer.DFS bonds exclude (fuel + 1) atom visited =
      Polymer.DFSlist bonds exclude fuel (bondNeighbours bonds atom) (insert atom visited) := rfl

lemma DFSlist_nil (bonds : List Bond) (exclude : Option Nat) (fuel : Nat)
    (visited : Finset Nat) : Polymer.DFSlist bonds exclude fuel [] visited = visited := rfl

lemma DFSlist_cons (bonds : List Bond) (exclude : Option Nat) (fuel nb : Nat)
    (rest : List Nat) (visited : Finset Nat) :
    Polymer.DFSlist bonds exclude fuel (nb :: rest) visited =
      if some nb ≠ exclude ∧ nb ∉ visited then
        Polymer.DFSlist bonds exclude fuel rest (Polymer.DFS bonds exclude fuel nb visited)
      else
        Polymer.DFSlist bonds exclude fuel rest visited := by
  unfold Polymer.DFSlist
  rw [List.foldl_cons]
  by_cases h : some nb ≠ exclude ∧ nb ∉ visited
  · rw [if_pos h, if_pos h]
  · rw [if_neg h, if_neg h]

lemma subset_DFS_pair (bonds : List Bond) (exclude : Option Nat) :
    ∀ fuel : Nat,
      (∀ atom visited, visited ⊆ Polymer.DFS bonds exclude fuel atom visited) ∧
      (∀ l visited, visited ⊆ Polymer.DFSlist bonds exclude fuel l visited) := by
  have listPart : ∀ fuel, (∀ atom visited, visited ⊆ Polymer.DFS bonds exclude fuel atom visited) →
      ∀ l visited, visited ⊆ Polymer.DFSlist bonds exclude fuel l visited := by
    intro fuel hP l
    induction l with
    | nil => intro v; rw [DFSlist_nil]
    | cons nb rest ih =>
        intro v
        rw [DFSlist_cons]
        split_ifs with h
        · exact (hP nb v).trans (ih _)
        · exact ih v
  intro fuel
  induction fuel with
  | zero =>
      have P0 : ∀ atom visited, visited ⊆ Polymer.DFS bonds exclude 0 atom visited := by
        intro atom v
        rw [DFS_zero]
        exact Finset.subset_insert _ _
      exact ⟨P0, listPart 0 P0⟩
  | succ fuel ih =>
      have P1 : ∀ atom visited, visited ⊆ Polymer.DFS bonds exclude (fuel + 1) atom visited := by
        intro atom v
        rw [DFS_succ]
        exact (Finset.subset_insert _ _).trans (listPart fuel ih.1 _ _)
      exact ⟨P1, listPart (fuel + 1) P1⟩

lemma subset_DFS (bonds : List Bond) (exclude : Option Nat) (fuel atom : Nat)
    (visited : Finset Nat) : visited ⊆ Polymer.DFS bonds exclude fuel atom visited :=
  (subset_DFS_pair bonds exclude fuel).1 atom visited

lemma subset_DFSlist (bonds : List Bond) (exclude : Option Nat) (fuel : Nat) (l : List Nat)
    (visited : Finset Nat) : visited ⊆ Polymer.DFSlist bonds exclude fuel l visited :=
  (subset_DFS_pair bonds exclude fuel).2 l visited

lemma insert_subset_DFS (bonds : List Bond) (exclude : Option Nat) (fuel atom : Nat)
    (visited : Finset Nat) : insert atom visited ⊆ Polymer.DFS bonds exclude fuel atom visited := by
  cases fuel with
  | zero => rw [DFS_zero]
  | succ fuel => rw [DFS_succ]; exact subset_DFSlist _ _ _ _ _

lemma mem_self_DFS (bonds : List Bond) (exclude : Option Nat) (fuel atom : Nat)
    (visited : Finset Nat) : atom ∈ Polymer.DFS bonds exclude fuel atom visited :=
  insert_subset_DFS bonds exclude fuel atom visited (Finset.mem_insert_self _ _)

lemma mem_DFSlist_of_mem (bonds : List Bond) (exclude : Option Nat) (fuel : Nat)
    {nb : Nat} {l : List Nat} (visited : Finset Nat) (hmem : nb ∈ l)
    (hne : some nb ≠ exclude) : nb ∈ Polymer.DFSlist bonds exclude fuel l visited := by
  induction l generalizing visited with
  | nil => cases hmem
  | cons head rest ih =>
      rw [DFSlist_cons]
      rcases List.mem_cons.mp hmem with rfl | hmem'
      · split_ifs with h
        · exact subset_DFSlist _ _ _ _ _ (mem_self_DFS _ _ _ _ _)
        · have hv : nb ∈ visited := by
            by_contra hv
            exact h ⟨hne, hv⟩
          exact subset_DFSlist _ _ _ _ _ hv
      · split_ifs with h
        · exact ih _ hmem'
        · exact ih _ hmem'

lemma reachAvoid_trans {bonds : List Bond} {exclude : Option Nat} {a b c : Nat}
    (hab : ReachAvoid bonds exclude a b) (hbc : ReachAvoid bonds exclude b c) :
    ReachAvoid bonds exclude a c := by
  induction hbc with
  | refl => exact hab
  | tail _ hnb hne ih => exact ih.tail hnb hne

lemma reachAvoid_step {bonds : List Bond} {exclude : Option Nat} {a b : Nat}
    (hnb : b ∈ bondNeighbours bonds a) (hne : some b ≠ exclude) :
    ReachAvoid bonds exclude a b :=
  ReachAvoid.refl.tail hnb hne

lemma reachAvoid_mem {bonds : List Bond} {exclude : Option Nat} {S : Finset Nat}
    (hclosed : BondsClosed bonds S) {a x : Nat} (ha : a ∈ S)
    (h : ReachAvoid bonds exclude a x) : x ∈ S := by
  induction h with
  | refl => exact ha
  | tail _ hnb _ _ => exact mem_of_bondNeighbours hclosed hnb

lemma reachAvoid_ne_exclude {bonds : List Bond} {q : Nat} {a x : Nat}
    (h : ReachAvoid bonds (some q) a x) : x = a ∨ x ≠ q := by
  induction h with
  | refl => exact Or.inl rfl
  | tail _ _ hne _ =>
      right
      intro hx
      exact hne (by rw [hx])

lemma DFS_sound_pair (bonds : List Bond) (exclude : Option Nat) :
    ∀ fuel : Nat,
      (∀ atom visited x, x ∈ Polymer.DFS bonds exclude fuel atom visited →
        x ∈ visited ∨ ReachAvoid bonds exclude atom x) ∧
      (∀ l visited x, x ∈ Polymer.DFSlist bonds exclude fuel l visited →
        x ∈ visited ∨ ∃ nb ∈ l, some nb ≠ exclude ∧ ReachAvoid bonds exclude nb x) := by
  have listPart : ∀ fuel,
      (∀ atom visited x, x ∈ Polymer.DFS bonds exclude fuel atom visited →
        x ∈ visited ∨ ReachAvoid bonds exclude atom x) →
      ∀ l visited x, x ∈ Polymer.DFSlist bonds exclude fuel l visited →
        x ∈ visited ∨ ∃ nb ∈ l, some nb ≠ exclude ∧ ReachAvoid bonds exclude nb x := by
    intro fuel hP l
    induction l with
    | nil =>
        intro v x hx
        rw [DFSlist_nil] at hx
        exact Or.inl hx
    | cons nb rest ih =>
        intro v x hx
        rw [DFSlist_cons] at hx
        split_ifs at hx with hc
        · rcases ih _ x hx with hx' | ⟨nb', hmem, hne, hr⟩
          · rcases hP nb v x hx' with hv | hr
            · exact Or.inl hv
            · exact Or.inr ⟨nb, by simp, hc.1, hr⟩
          · exact Or.inr ⟨nb', by simp [hmem], hne, hr⟩
        · rcases ih _ x hx with hv | ⟨nb', hmem, hne, hr⟩
          · exact Or.inl hv
          · exact Or.inr ⟨nb', by simp [hmem], hne, hr⟩
  intro fuel
  induction fuel with
  | zero =>
      have P0 : ∀ atom visited x, x ∈ Polymer.DFS bonds exclude 0 atom visited →
          x ∈ visited ∨ ReachAvoid bonds exclude atom x := by
        intro atom v x hx
        rw [DFS_zero] at hx
        rcases Finset.mem_insert.mp hx with rfl | hv
        · exact Or.inr ReachAvoid.refl
        · exact Or.inl hv
      exact ⟨P0, listPart 0 P0⟩
  | succ fuel ih =>
      have P1 : ∀ atom visited x, x ∈ Polymer.DFS bonds exclude (fuel + 1) atom visited →
          x ∈ visited ∨ ReachAvoid bonds exclude atom x := by
        intro atom v x hx
        rw [DFS_succ] at hx
        rcases listPart fuel ih.1 _ _ x hx with hv | ⟨nb, hmem, hne, hr⟩
        · rcases Finset.mem_insert.mp hv with rfl | hv'
          · exact Or.inr ReachAvoid.refl
          · exact Or.inl hv'
        · exact Or.inr (reachAvoid_trans (reachAvoid_step hmem hne) hr)
      exact ⟨P1, listPart (fuel + 1) P1⟩

lemma DFS_closed_pair (bonds : List Bond) (exclude : Option Nat) (S : Finset Nat)
    (hclosed : BondsClosed bonds S) :
    ∀ fuel : Nat,
      (∀ atom visited, atom ∈ S → atom ∉ visited → (S \ visited).card ≤ fuel →
        ∀ x ∈ Polymer.DFS bonds exclude fuel atom visited, x ∉ visited →
          ∀ nb ∈ bondNeighbours bonds x, some nb ≠ exclude →
            nb ∈ Polymer.DFS bonds exclude fuel atom visited) ∧
      (∀ l visited, (∀ y ∈ l, y ∈ S) → (S \ visited).card ≤ fuel →
        ∀ x ∈ Polymer.DFSlist bonds exclude fuel l visited, x ∉ visited →
          ∀ nb ∈ bondNeighbours bonds x, some nb ≠ exclude →
            nb ∈ Polymer.DFSlist bonds exclude fuel l visited) := by
  intro fuel
  induction fuel with
  | zero =>
      have P0 : ∀ atom visited, atom ∈ S → atom ∉ visited → (S \ visited).card ≤ 0 →
          ∀ x ∈ Polymer.DFS bonds exclude 0 atom visited, x ∉ visited →
            ∀ nb ∈ bondNeighbours bonds x, some nb ≠ exclude →
              nb ∈ Polymer.DFS bonds exclude 0 atom visited := by
        intro atom visited hS hnv hcard x _ _ nb _ _
        exfalso
        have hmem : atom ∈ S \ visited := Finset.mem_sdiff.mpr ⟨hS, hnv⟩
        have hpos : 0 < (S \ visited).card := Finset.card_pos.mpr ⟨atom, hmem⟩
        omega
      refine ⟨P0, ?_⟩
      intro l
      induction l with
      | nil =>
          intro visited _ _ x hx hxv nb _ _
          rw [DFSlist_nil] at hx
          exact absurd hx hxv
      | cons nb0 rest ihl =>
          intro visited hl hcard x hx hxv nb hnb hne
          have hempty : S \ visited = ∅ :=
            Finset.card_eq_zero.mp (Nat.le_zero.mp hcard)
          have hnb0 : nb0 ∈ visited := by
            by_contra hcon
            have hmem : nb0 ∈ S \ visited :=
              Finset.mem_sdiff.mpr ⟨hl nb0 (by simp), hcon⟩
            rw [hempty] at hmem
            exact absurd hmem (Finset.not_mem_empty nb0)
          rw [DFSlist_cons, if_neg (fun hcon => hcon.2 hnb0)] at hx ⊢
          exact ihl visited (fun y hy => hl y (by simp [hy])) hcard x hx hxv nb hnb hne
  | succ fuel ih =>
      have P1 : ∀ atom visited, atom ∈ S → atom ∉ visited → (S \ visited).card ≤ fuel + 1 →
          ∀ x ∈ Polymer.DFS bonds exclude (fuel + 1) atom visited, x ∉ visited →
            ∀ nb ∈ bondNeighbours bonds x, some nb ≠ exclude →
              nb ∈ Polymer.DFS bonds exclude (fuel + 1) atom visited := by
        intro atom visited hS hnv hcard x hx hxv nb hnb hne
        rw [DFS_succ] at hx ⊢
        have hcard' : (S \ insert atom visited).card ≤ fuel := by
          have hmem : atom ∈ S \ visited := Finset.mem_sdiff.mpr ⟨hS, hnv⟩
          have herase : S \ insert atom visited = (S \ visited).erase atom := by
            ext y
            simp only [Finset.mem_sdiff, Finset.mem_erase, Finset.mem_insert]
            tauto
          rw [herase, Finset.card_erase_of_mem hmem]
          omega
        by_cases hxa : x = atom
        · subst hxa
          exact mem_DFSlist_of_mem bonds exclude fuel _ hnb hne
        · have hxv' : x ∉ insert atom visited := by
            simp only [Finset.mem_insert]
            tauto
          exact ih.2 (bondNeighbours bonds atom) (insert atom visited)
            (fun y hy => mem_of_bondNeighbours hclosed hy) hcard' x hx hxv' nb hnb hne
      refine ⟨P1, ?_⟩
      intro l
      induction l with
      | nil =>
          intro visited _ _ x hx hxv nb _ _
          rw [DFSlist_nil] at hx
          exact absurd hx hxv
      | cons nb0 rest ihl =>
          intro visited hl hcard x hx hxv nb hnb hne
          rw [DFSlist_cons] at hx ⊢
          by_cases hc : some nb0 ≠ exclude ∧ nb0 ∉ visited
          · rw [if_pos hc] at hx ⊢
            by_cases hxv2 : x ∈ Polymer.DFS bonds exclude (fuel + 1) nb0 visited
            · have hclo := P1 nb0 visited (hl nb0 (by simp)) hc.2 hcard x hxv2 hxv nb hnb hne
              exact subset_DFSlist _ _ _ _ _ hclo
            · have hvsub : visited ⊆ Polymer.DFS bonds exclude (fuel + 1) nb0 visited :=
                subset_DFS _ _ _ _ _
              have hcard2 : (S \ Polymer.DFS bonds exclude (fuel + 1) nb0 visited).card ≤
                  fuel + 1 := by
                refine le_trans (Finset.card_le_card ?_) hcard
                exact Finset.sdiff_subset_sdiff (Finset.Subset.refl S) hvsub
              exact ihl _ (fun y hy => hl y (by simp [hy])) hcard2 x hx hxv2 nb hnb hne
          · rw [if_neg hc] at hx ⊢
            exact ihl visited (fun y hy => hl y (by simp [hy])) hcard x hx hxv nb hnb hne

lemma DFS_complete {bonds : List Bond} {exclude : Option Nat} {S : Finset Nat}
    (hclosed : BondsClosed bonds S) {root : Nat} (hroot : root ∈ S) {fuel : Nat}
    (hfuel : S.card ≤ fuel) {x : Nat} (hr : ReachAvoid bonds exclude root x) :
    x ∈ Polymer.DFS bonds exclude fuel root ∅ := by
  have hclo := (DFS_closed_pair bonds exclude S hclosed fuel).1 root ∅ hroot
    (Finset.not_mem_empty root) (by simpa using hfuel)
  induction hr with
  | refl => exact mem_self_DFS _ _ _ _ _
  | tail _ hnb hne ih =>
      exact hclo _ ih (Finset.not_mem_empty _) _ hnb hne

/-- The central DFS theorem: on a graph whose bonds stay inside the atom-id
universe `S`, a search rooted inside `S` with fuel at least `S.card`
(recursion depth bounded by the number of atoms) returns exactly the
barrier-excluded reachable set. -/
lemma DFS_mem_iff_reachAvoid {bonds : List Bond} {exclude : Option Nat} {S : Finset Nat}
    (hclosed : BondsClosed bonds S) {root : Nat} (hroot : root ∈ S) {fuel : Nat}
    (hfuel : S.card ≤ fuel) (x : Nat) :
    x ∈ Polymer.DFS bonds exclude fuel root ∅ ↔ ReachAvoid bonds exclude root x := by
  constructor
  · intro hx
    rcases (DFS_sound_pair bonds exclude fuel).1 root ∅ x hx with hv | hr
    · exact absurd hv (Finset.not_mem_empty x)
    · exact hr
  · exact DFS_complete hclosed hroot hfuel

lemma mem_removeEdge {bonds : List Bond} {x y : Nat} {b : Bond} :
    b ∈ removeEdge bonds x y ↔ b ∈ bonds ∧ ¬ b.connects x y := by
  simp [removeEdge, List.mem_filter]

lemma reachAvoid_none_symm {bonds : List Bond} {a x : Nat}
    (h : ReachAvoid bonds none a x) : ReachAvoid bonds none x a := by
  induction h with
  | refl => exact ReachAvoid.refl
  | tail _ hnb _ ih =>
      exact reachAvoid_trans (reachAvoid_step (bondNeighbours_symm hnb) (by simp)) ih

lemma bondNeighbours_removeEdge_subset {bonds : List Bond} {x y a nb : Nat}
    (h : nb ∈ bondNeighbours (removeEdge bonds x y) a) : nb ∈ bondNeighbours bonds a := by
  rcases mem_bondNeighbours.mp h with ⟨b, hb, hc⟩
  exact mem_bondNeighbours.mpr ⟨b, (mem_removeEdge.mp hb).1, hc⟩

/-- Soundness of the barrier trick, one direction: whatever the search
reaches from `root` while avoiding the `barrier` atom lies in the connected
component of `root` after the junction edge is cut.  (This direction does
not even need the bridge assumption.) -/
lemma reachAvoid_to_cut {bonds : List Bond} {root barrier x : Nat}
    (h : ReachAvoid bonds (some barrier) root x) :
    ReachAvoid (removeEdge bonds root barrier) none root x := by
  induction h with
  | refl => exact ReachAvoid.refl
  | tail hab hnb hne ih =>
      rename_i b c
      have hcq : c ≠ barrier := fun hcon => hne (by rw [hcon])
      rcases mem_bondNeighbours.mp hnb with ⟨bd, hbd, hcon⟩
      by_cases hjunc : bd.connects root barrier
      · have hcr : c = root := by
          rcases hcon with ⟨h1, h2⟩ | ⟨h1, h2⟩ <;> rcases hjunc with ⟨h3, h4⟩ | ⟨h3, h4⟩
          · exact absurd (h2.symm.trans h4) hcq
          · exact h2.symm.trans h4
          · exact h1.symm.trans h3
          · exact absurd (h1.symm.trans h3) hcq
        rw [hcr]
        exact ReachAvoid.refl
      · refine ih.tail ?_ (by simp)
        exact mem_bondNeighbours.mpr ⟨bd, mem_removeEdge.mpr ⟨hbd, hjunc⟩, hcon⟩

/-- Completeness of the barrier trick: when the junction bond is a bridge,
every atom of the cut component of `root` is reached by the search that
merely avoids the `barrier` atom. -/
lemma cut_to_reachAvoid {bonds : List Bond} {root barrier x : Nat}
    (hbr : IsBridge bonds root barrier)
    (h : ReachAvoid (removeEdge bonds root barrier) none root x) :
    ReachAvoid bonds (some barrier) root x := by
  induction h with
  | refl => exact ReachAvoid.refl
  | tail hab hnb _hg ih =>
      rename_i b c
      have hcq : c ≠ barrier := by
        intro hcon
        subst hcon
        rcases mem_bondNeighbours.mp hnb with ⟨bd, hbd, hcb⟩
        rcases mem_removeEdge.mp hbd with ⟨-, hnj⟩
        have hbr' : b ≠ root := by
          intro hb
          subst hb
          exact hnj hcb
        exact hbr (hab.tail hnb (by simp))
      exact ih.tail (bondNeighbours_removeEdge_subset hnb) (by simp [hcq])

/-- The two cut components are disjoint when the junction bond is a
bridge: nothing is reachable from both retained sides. -/
lemma cut_components_disjoint {bonds : List Bond} {root barrier x : Nat}
    (hbr : IsBridge bonds root barrier)
    (h1 : ReachAvoid (removeEdge bonds root barrier) none root x)
    (h2 : ReachAvoid (removeEdge bonds root barrier) none barrier x) : False :=
  hbr (reachAvoid_trans h1 (reachAvoid_none_symm h2))

/-- One discard search of `extend`, fully characterised: with the junction
bond a bridge, the barrier-excluded depth-first search from `root` with
fuel = number of atoms computes exactly the connected fragment of `root`
in the graph with the junction edge cut. -/
lemma DFS_discard_eq_component {t : Topology}
    (hclosed : BondsClosed t.bonds t.atomIds.toFinset)
    {root barrier : Nat} (hroot : root ∈ t.atomIds)
    (hbr : IsBridge t.bonds root barrier) (x : Nat) :
    x ∈ Polymer.DFS t.bonds (some barrier) t.atoms.length root ∅ ↔
      ReachAvoid (removeEdge t.bonds root barrier) none root x := by
  have hfuel : t.atomIds.toFinset.card ≤ t.atoms.length := by
    calc t.atomIds.toFinset.card ≤ t.atomIds.length := List.toFinset_card_le _
    _ = t.atoms.length := by simp [Topology.atomIds]
  rw [DFS_mem_iff_reachAvoid hclosed (List.mem_toFinset.mpr hroot) hfuel x]
  exact ⟨reachAvoid_to_cut, cut_to_reachAvoid hbr⟩

lemma le_foldr_max {l : List Nat} {x : Nat} (h : x ∈ l) : x ≤ l.foldr max 0 := by
  induction l with
  | nil => cases h
  | cons y l ih =>
      rcases List.mem_cons.mp h with rfl | h'
      · exact le_max_left _ _
      · exact le_trans (ih h') (le_max_right _ _)

lemma atom_id_le_maxAtomId {t : Topology} {a : Atom} (h : a ∈ t.atoms) :
    a.atom_id ≤ t.maxAtomId :=
  le_foldr_max (List.mem_map_of_mem _ h)

lemma renumberAtomsList_ids (start : Nat) (l : List Atom) :
    (renumberAtomsList start l).map (fun a => a.atom_id) = List.range' start l.length := by
  induction l generalizing start with
  | nil => rfl
  | cons a l ih => simp [renumberAtomsList, List.range'_succ, ih]

lemma renumberAtomsList_length (start : Nat) (l : List Atom) :
    (renumberAtomsList start l).length = l.length := by
  induction l generalizing start with
  | nil => rfl
  | cons a l ih => simp [renumberAtomsList, ih]

lemma renumMap_mem_range' {t : Topology} {start oid : Nat} (h : oid ∈ t.atomIds) :
    t.renumMap start oid ∈ List.range' start t.atoms.length := by
  rw [Topology.renumMap, if_pos h, List.mem_range'_1]
  have hlt : t.atomIds.indexOf oid < t.atomIds.length := List.indexOf_lt_length.mpr h
  have hlen : t.atomIds.length = t.atoms.length := by simp [Topology.atomIds]
  omega

lemma renumMap_inj {t : Topology} {start o1 o2 : Nat} (h1 : o1 ∈ t.atomIds)
    (h2 : o2 ∈ t.atomIds) (h : t.renumMap start o1 = t.renumMap start o2) : o1 = o2 := by
  rw [Topology.renumMap, if_pos h1, Topology.renumMap, if_pos h2] at h
  exact (List.indexOf_inj h1 h2).mp (by omega)

lemma renumber_atoms_atomIds (t : Topology) (start : Nat) :
    (t.renumber_atoms start).atomIds = List.range' start t.atoms.length := by
  rw [Topology.atomIds, Topology.renumber_atoms]
  exact renumberAtomsList_ids start t.atoms

lemma renumber_atoms_length (t : Topology) (start : Nat) :
    (t.renumber_atoms start).atoms.length = t.atoms.length :=
  renumberAtomsList_length start t.atoms

lemma renumber_atoms_closed {t : Topology} (start : Nat)
    (hclosed : ∀ b ∈ t.bonds, b.atom_a ∈ t.atomIds ∧ b.atom_b ∈ t.atomIds) :
    ∀ b ∈ (t.renumber_atoms start).bonds,
      b.atom_a ∈ (t.renumber_atoms start).atomIds ∧
      b.atom_b ∈ (t.renumber_atoms start).atomIds := by
  intro b hb
  rw [Topology.renumber_atoms] at hb
  rcases List.mem_map.mp hb with ⟨b0, hb0, rfl⟩
  rw [renumber_atoms_atomIds]
  exact ⟨renumMap_mem_range' (hclosed b0 hb0).1, renumMap_mem_range' (hclosed b0 hb0).2⟩

lemma renumberAtomIndexesList_ids (ty : String) (base : Nat) (l : List Atom) :
    (renumberAtomIndexesList ty base l).map (fun a => a.atom_id) =
      l.map (fun a => a.atom_id) := by
  induction l generalizing base with
  | nil => rfl
  | cons a l ih =>
      rw [renumberAtomIndexesList]
      split_ifs with h
      · simp [ih]
      · simp [ih]

lemma renumberAtomIndexesList_mem (ty : String) (base : Nat) (l : List Atom) :
    ∀ x ∈ renumberAtomIndexesList ty base l,
      (x.atom_type = ty → base ≤ x.atom_index) ∧ (x.atom_type ≠ ty → x ∈ l) := by
  induction l generalizing base with
  | nil => intro x hx; cases hx
  | cons a l ih =>
      intro x hx
      rw [renumberAtomIndexesList] at hx
      split_ifs at hx with h
      · rcases List.mem_cons.mp hx with rfl | hx'
        · exact ⟨fun _ => le_refl _, fun hne => absurd h hne⟩
        · rcases ih (base + 1) x hx' with ⟨h1, h2⟩
          exact ⟨fun hty => le_trans (by omega) (h1 hty), fun hne => List.mem_cons_of_mem _ (h2 hne)⟩
      · rcases List.mem_cons.mp hx with rfl | hx'
        · exact ⟨fun hty => absurd hty h, fun _ => List.mem_cons_self _ _⟩
        · rcases ih base x hx' with ⟨h1, h2⟩
          exact ⟨h1, fun hne => List.mem_cons_of_mem _ (h2 hne)⟩

lemma indexLoopAux_junctions (pt : Topology) (tys : List String) (acc : Monomer) :
    (tys.foldl (fun acc ty =>
      { acc with topology := acc.topology.renumber_atom_indexes ty (pt.maxAtomIndex ty + 1) })
      acc).junctions = acc.junctions := by
  induction tys generalizing acc with
  | nil => rfl
  | cons ty tys ih => rw [List.foldl_cons, ih]

lemma indexLoopAux_bonds (pt : Topology) (tys : List String) (acc : Monomer) :
    (tys.foldl (fun acc ty =>
      { acc with topology := acc.topology.renumber_atom_indexes ty (pt.maxAtomIndex ty + 1) })
      acc).topology.bonds = acc.topology.bonds := by
  induction tys generalizing acc with
  | nil => rfl
  | cons ty tys ih => rw [List.foldl_cons, ih]; rfl

lemma indexLoopAux_ids (pt : Topology) (tys : List String) (acc : Monomer) :
    (tys.foldl (fun acc ty =>
      { acc with topology := acc.topology.renumber_atom_indexes ty (pt.maxAtomIndex ty + 1) })
      acc).topology.atomIds = acc.topology.atomIds := by
  induction tys generalizing acc with
  | nil => rfl
  | cons ty tys ih =>
      rw [List.foldl_cons, ih]
      exact renumberAtomIndexesList_ids _ _ _

lemma indexLoopAux_pres (pt : Topology) {ty : String} (P : Nat → Prop) :
    ∀ (tys : List String) (acc : Monomer), ty ∉ tys →
      (∀ x ∈ acc.topology.atoms, x.atom_type = ty → P x.atom_index) →
      ∀ x ∈ (tys.foldl (fun acc ty =>
        { acc with topology := acc.topology.renumber_atom_indexes ty (pt.maxAtomIndex ty + 1) })
        acc).topology.atoms, x.atom_type = ty → P x.atom_index := by
  intro tys
  induction tys with
  | nil => intro acc _ hP; exact hP
  | cons ty0 tys ih =>
      intro acc hmem hP
      rw [List.foldl_cons]
      refine ih _ (fun hcon => hmem (List.mem_cons_of_mem _ hcon)) ?_
      intro x hx hty
      have hne : ty0 ≠ ty := fun hcon => hmem (by rw [hcon]; exact List.mem_cons_self _ _)
      have hx' := (renumberAtomIndexesList_mem ty0 _ _ x hx).2 (by rw [hty]; exact hne.symm)
      exact hP x hx' hty

lemma indexLoopAux_ge (pt : Topology) :
    ∀ (tys : List String) (acc : Monomer) (ty : String), ty ∈ tys →
      ∀ x ∈ (tys.foldl (fun acc ty =>
        { acc with topology := acc.topology.renumber_atom_indexes ty (pt.maxAtomIndex ty + 1) })
        acc).topology.atoms, x.atom_type = ty → pt.maxAtomIndex ty + 1 ≤ x.atom_index := by
  intro tys
  induction tys with
  | nil => intro acc ty h; cases h
  | cons ty0 tys ih =>
      intro acc ty hmem
      by_cases hrest : ty ∈ tys
      · rw [List.foldl_cons]
        exact ih _ ty hrest
      · have hty0 : ty = ty0 := by
          rcases List.mem_cons.mp hmem with h | h
          · exact h
          · exact absurd h hrest
        subst hty0
        rw [List.foldl_cons]
        refine indexLoopAux_pres pt _ tys _ hrest ?_
        intro x hx hty
        exact (renumberAtomIndexesList_mem ty _ _ x hx).1 hty

lemma preparedMonomer_ids (p : Polymer) (monomer : Monomer) :
    (preparedMonomer p monomer).topology.atomIds =
      List.range' (p.topology.maxAtomId + 1) monomer.topology.atoms.length := by
  rw [preparedMonomer, renumberIndexLoop, indexLoopAux_ids, Monomer.renumber_atoms]
  rw [Monomer.copy]
  rw [renumber_atoms_atomIds]

lemma preparedMonomer_length (p : Polymer) (monomer : Monomer) :
    (preparedMonomer p monomer).topology.atoms.length = monomer.topology.atoms.length := by
  have h := preparedMonomer_ids p monomer
  have h1 : (preparedMonomer p monomer).topology.atomIds.length =
      (List.range' (p.topology.maxAtomId + 1) monomer.topology.atoms.length).length := by
    rw [h]
  simpa [Topology.atomIds] using h1

lemma preparedMonomer_ids_nodup (p : Polymer) (monomer : Monomer) :
    (preparedMonomer p monomer).topology.atomIds.Nodup := by
  rw [preparedMonomer_ids]
  simp [List.nodup_range']

lemma preparedMonomer_ids_gt (p : Polymer) (monomer : Monomer) {y : Nat}
    (hy : y ∈ (preparedMonomer p monomer).topology.atomIds) : p.topology.maxAtomId < y := by
  rw [preparedMonomer_ids] at hy
  have := List.mem_range'_1.mp hy
  omega

lemma preparedMonomer_ids_disjoint (p : Polymer) (monomer : Monomer) {y : Nat}
    (hy : y ∈ (preparedMonomer p monomer).topology.atomIds) : y ∉ p.topology.atomIds := by
  intro hcon
  rcases List.mem_map.mp hcon with ⟨a, ha, rfl⟩
  exact absurd (atom_id_le_maxAtomId ha) (by have := preparedMonomer_ids_gt p monomer hy; omega)

lemma preparedMonomer_closed (p : Polymer) (monomer : Monomer)
    (hclosed : ∀ b ∈ monomer.topology.bonds,
      b.atom_a ∈ monomer.topology.atomIds ∧ b.atom_b ∈ monomer.topology.atomIds) :
    ∀ b ∈ (preparedMonomer p monomer).topology.bonds,
      b.atom_a ∈ (preparedMonomer p monomer).topology.atomIds ∧
      b.atom_b ∈ (preparedMonomer p monomer).topology.atomIds := by
  intro b hb
  rw [preparedMonomer, renumberIndexLoop] at hb ⊢
  rw [indexLoopAux_bonds] at hb
  rw [indexLoopAux_ids]
  rw [Monomer.copy] at hb ⊢
  exact renumber_atoms_closed _ hclosed b hb

lemma preparedMonomer_junctions (p : Polymer) (monomer : Monomer) :
    (preparedMonomer p monomer).junctions =
      monomer.junctions.map (renumJunction monomer.topology (p.topology.maxAtomId + 1)) := by
  rw [preparedMonomer, renumberIndexLoop, indexLoopAux_junctions, Monomer.renumber_atoms,
    Monomer.copy]

lemma renumJunction_name (t : Topology) (start : Nat) (j : Junction) :
    (renumJunction t start j).name = j.name := rfl

lemma preparedMonomer_junction_endpoints (p : Polymer) (monomer : Monomer)
    {j : Junction} (_hj : j ∈ monomer.junctions)
    (hja : j.location.atom_a ∈ monomer.topology.atomIds)
    (hjb : j.location.atom_b ∈ monomer.topology.atomIds)
    (hjd : j.location.atom_a ≠ j.location.atom_b) :
    (renumJunction monomer.topology (p.topology.maxAtomId + 1) j).location.atom_a ∈
        (preparedMonomer p monomer).topology.atomIds ∧
      (renumJunction monomer.topology (p.topology.maxAtomId + 1) j).location.atom_b ∈
        (preparedMonomer p monomer).topology.atomIds ∧
      (renumJunction monomer.topology (p.topology.maxAtomId + 1) j).location.atom_a ≠
        (renumJunction monomer.topology (p.topology.maxAtomId + 1) j).location.atom_b := by
  rw [preparedMonomer, renumberIndexLoop, indexLoopAux_ids, Monomer.copy,
    Monomer.renumber_atoms, renumber_atoms_atomIds]
  refine ⟨renumMap_mem_range' hja, renumMap_mem_range' hjb, ?_⟩
  intro hcon
  exact hjd (renumMap_inj hja hjb hcon)

lemma selectedToJunction_eq_some {p : Polymer} {monomer : Monomer} {tn : String}
    {tj : Junction} (h : selectedToJunction p monomer tn = some tj) :
    tj ∈ (preparedMonomer p monomer).junctions ∧ tj.name = tn := by
  rw [selectedToJunction] at h
  refine ⟨List.mem_of_find?_eq_some h, ?_⟩
  have := List.find?_some h
  simpa using this

lemma selectedToJunction_isSome {p : Polymer} {monomer : Monomer} {tn : String}
    (h : ∃ j ∈ monomer.junctions, j.name = tn) :
    ∃ tj, selectedToJunction p monomer tn = some tj := by
  rcases h with ⟨j, hj, hname⟩
  have hmem : renumJunction monomer.topology (p.topology.maxAtomId + 1) j ∈
      (preparedMonomer p monomer).junctions := by
    rw [preparedMonomer_junctions]
    exact List.mem_map_of_mem _ hj
  have hsome : (selectedToJunction p monomer tn).isSome := by
    rw [selectedToJunction, List.find?_isSome]
    exact ⟨_, hmem, by simp [renumJunction_name, hname]⟩
  exact Option.isSome_iff_exists.mp hsome

lemma selectedFromJunction_eq_some {p : Polymer} {fn : String} {pick : Nat}
    {fj : Junction} (h : selectedFromJunction p fn pick = some fj) :
    fj ∈ p.junctions ∧ fj.name = fn := by
  rw [selectedFromJunction] at h
  rcases hcand : fromCandidates p fn with _ | ⟨c, cs⟩
  · rw [hcand] at h
    cases h
  · rw [hcand] at h
    have hfj0 : (c :: cs).getD (pick % (cs.length + 1)) c = fj := Option.some_inj.mp h
    have hlt : pick % (cs.length + 1) < (c :: cs).length := by
      simp [Nat.mod_lt _ (Nat.succ_pos cs.length)]
    have hmem0 : (c :: cs).getD (pick % (cs.length + 1)) c ∈ c :: cs := by
      rw [List.getD_eq_get _ _ hlt]
      exact List.get_mem _ _ _
    rw [hfj0] at hmem0
    have hfj : fj ∈ fromCandidates p fn := by
      rw [hcand]
      exact hmem0
    have hmf := List.mem_filter.mp (by rw [fromCandidates] at hfj; exact hfj)
    exact ⟨hmf.1, by simpa using hmf.2⟩

lemma selectedFromJunction_isSome {p : Polymer} {fn : String} {pick : Nat}
    (h : ∃ j ∈ p.junctions, j.name = fn) :
    ∃ fj, selectedFromJunction p fn pick = some fj := by
  rcases h with ⟨j, hj, hname⟩
  have hmem : j ∈ fromCandidates p fn := by
    rw [fromCandidates, List.mem_filter]
    exact ⟨hj, by simp [hname]⟩
  rw [selectedFromJunction]
  rcases hcand : fromCandidates p fn with _ | ⟨c, cs⟩
  · rw [hcand] at hmem
    cases hmem
  · exact ⟨_, rfl⟩

lemma DFS_subset_of_closed {bonds : List Bond} {S : Finset Nat}
    (hclosed : BondsClosed bonds S) {exclude : Option Nat} {root : Nat} (hroot : root ∈ S)
    {fuel : Nat} {x : Nat} (hx : x ∈ Polymer.DFS bonds exclude fuel root ∅) : x ∈ S := by
  rcases (DFS_sound_pair bonds exclude fuel).1 root ∅ x hx with hv | hr
  · exact absurd hv (Finset.not_mem_empty x)
  · exact reachAvoid_mem hclosed hroot hr

lemma exclude_not_mem_DFS {bonds : List Bond} {root q : Nat} (hne : root ≠ q)
    {fuel : Nat} : q ∉ Polymer.DFS bonds (some q) fuel root ∅ := by
  intro hq
  rcases (DFS_sound_pair bonds (some q) fuel).1 root ∅ q hq with hv | hr
  · exact absurd hv (Finset.not_mem_empty q)
  · rcases reachAvoid_ne_exclude hr with h | h
    · exact hne h.symm
    · exact h rfl

lemma length_filter_not_mem_finset :
    ∀ (l : List Atom) (s : Finset Nat),
      (l.map (fun a => a.atom_id)).Nodup →
      (∀ x ∈ s, x ∈ l.map (fun a => a.atom_id)) →
      (l.filter (fun a => decide (a.atom_id ∉ s))).length + s.card = l.length := by
  intro l
  induction l with
  | nil =>
      intro s _ hsub
      have hempty : s = ∅ :=
        Finset.eq_empty_iff_forall_not_mem.mpr (fun x hx => by simpa using hsub x hx)
      simp [hempty]
  | cons a l ih =>
      intro s hnodup hsub
      rw [List.map_cons, List.nodup_cons] at hnodup
      obtain ⟨hna, hnodup⟩ := hnodup
      by_cases hm : a.atom_id ∈ s
      · rw [List.filter_cons, if_neg (by simp [hm])]
        have hfc : l.filter (fun x => decide (x.atom_id ∉ s)) =
            l.filter (fun x => decide (x.atom_id ∉ s.erase a.atom_id)) := by
          apply List.filter_congr
          intro x hx
          have hne : x.atom_id ≠ a.atom_id :=
            fun hcon => hna (hcon ▸ List.mem_map_of_mem _ hx)
          simp [Finset.mem_erase, hne]
        have hsub' : ∀ x ∈ s.erase a.atom_id, x ∈ l.map (fun a => a.atom_id) := by
          intro x hx
          rcases Finset.mem_erase.mp hx with ⟨hne, hxs⟩
          rcases List.mem_cons.mp (hsub x hxs) with h | h
          · exact absurd h hne
          · exact h
        have hih := ih (s.erase a.atom_id) hnodup hsub'
        have hcard := Finset.card_erase_add_one hm
        rw [hfc]
        simp only [List.length_cons]
        omega
      · rw [List.filter_cons, if_pos (by simp [hm])]
        have hsub' : ∀ x ∈ s, x ∈ l.map (fun a => a.atom_id) := by
          intro x hx
          rcases List.mem_cons.mp (hsub x hx) with h | h
          · subst h
            exact absurd hx hm
          · exact h
        have hih := ih s hnodup hsub'
        simp only [List.length_cons]
        omega

lemma get_bond_eq_some {t : Topology} {x y : Nat} {bd : Bond}
    (h : t.get_bond x y = some bd) : bd ∈ t.bonds ∧ bd.connects x y :=
  ⟨List.mem_of_find?_eq_some h, by simpa using List.find?_some h⟩

/-- The combined analysis of the success path of `extend`, under
well-formed inputs: the atom count bookkeeping, the unique new bond with
its default parameters, and the consumed junction's removal. -/
lemma extendSuccess_spec {p : Polymer} {monomer : Monomer} {fn tn : String} {pick : Nat}
    {tj fj : Junction} (hv : ValidInput p monomer fn tn)
    (htj : selectedToJunction p monomer tn = some tj)
    (hfj : selectedFromJunction p fn pick = some fj) :
    (extendSuccess p (consumedMonomer p monomer tj) tj fj).topology.atoms.length
        + (discardMonomerSet (consumedMonomer p monomer tj) tj).card
        + (discardPolymerSet p fj).card
      = p.topology.atoms.length + monomer.topology.atoms.length ∧
    (extendSuccess p (consumedMonomer p monomer tj) tj fj).topology.bonds.filter
        (fun b => decide (b.connects fj.location.atom_a tj.location.atom_b)) =
      [Bond.mk fj.location.atom_a tj.location.atom_b 1 1 1] ∧
    (extendSuccess p (consumedMonomer p monomer tj) tj fj).junctions.count fj + 1 =
      p.junctions.count fj := by
  obtain ⟨-, hpnodup, hmnodup, hpclosed, hmclosed, hpjunc, hmjunc, -, -⟩ := hv
  -- the selected junctions and their endpoints
  obtain ⟨htj_mem, htj_name⟩ := selectedToJunction_eq_some htj
  have htj_mem' := htj_mem
  rw [preparedMonomer_junctions] at htj_mem'
  obtain ⟨j0, hj0, htj0⟩ := List.mem_map.mp htj_mem'
  obtain ⟨hj0a, hj0b, hj0ne⟩ := hmjunc j0 hj0
  have hprepj := preparedMonomer_junction_endpoints p monomer hj0 hj0a hj0b hj0ne
  rw [htj0] at hprepj
  obtain ⟨htja, htjb, htjne⟩ := hprepj
  obtain ⟨hfj_mem, hfj_name⟩ := selectedFromJunction_eq_some hfj
  obtain ⟨hfja, hfjb, hfjne⟩ := hpjunc fj hfj_mem
  -- closures in Finset form
  have hmclosedF : BondsClosed (preparedMonomer p monomer).topology.bonds
      (preparedMonomer p monomer).topology.atomIds.toFinset := by
    intro b hb
    have h := preparedMonomer_closed p monomer hmclosed b hb
    exact ⟨List.mem_toFinset.mpr h.1, List.mem_toFinset.mpr h.2⟩
  have hpclosedF : BondsClosed p.topology.bonds p.topology.atomIds.toFinset := by
    intro b hb
    have h := hpclosed b hb
    exact ⟨List.mem_toFinset.mpr h.1, List.mem_toFinset.mpr h.2⟩
  -- the discard sets and their bounds
  have hnm_top : (consumedMonomer p monomer tj).topology = (preparedMonomer p monomer).topology :=
    rfl
  have hdM_sub : ∀ x ∈ discardMonomerSet (consumedMonomer p monomer tj) tj,
      x ∈ (preparedMonomer p monomer).topology.atomIds := by
    intro x hx
    rw [discardMonomerSet, hnm_top] at hx
    exact List.mem_toFinset.mp
      (DFS_subset_of_closed hmclosedF (List.mem_toFinset.mpr htja) hx)
  have hdP_sub : ∀ x ∈ discardPolymerSet p fj, x ∈ p.topology.atomIds := by
    intro x hx
    rw [discardPolymerSet] at hx
    exact List.mem_toFinset.mp
      (DFS_subset_of_closed hpclosedF (List.mem_toFinset.mpr hfjb) hx)
  have htjb_not_dM : tj.location.atom_b ∉ discardMonomerSet (consumedMonomer p monomer tj) tj := by
    rw [discardMonomerSet, hnm_top]
    exact exclude_not_mem_DFS htjne
  have hfja_not_dP : fj.location.atom_a ∉ discardPolymerSet p fj := by
    rw [discardPolymerSet]
    exact exclude_not_mem_DFS (Ne.symm hfjne)
  have hdisj : ∀ x ∈ (preparedMonomer p monomer).topology.atomIds, x ∉ p.topology.atomIds :=
    fun x hx => preparedMonomer_ids_disjoint p monomer hx
  have hfja_not_dM : fj.location.atom_a ∉ discardMonomerSet (consumedMonomer p monomer tj) tj :=
    fun hcon => hdisj _ (hdM_sub _ hcon) hfja
  have htjb_not_dP : tj.location.atom_b ∉ discardPolymerSet p fj :=
    fun hcon => hdisj _ htjb (hdP_sub _ hcon)
  -- merged id list facts
  have hmerged_ids : (p.topology.atoms ++ (preparedMonomer p monomer).topology.atoms).map
      (fun a => a.atom_id) = p.topology.atomIds ++ (preparedMonomer p monomer).topology.atomIds := by
    rw [List.map_append]
    rfl
  have hmerged_nodup : ((p.topology.atoms ++ (preparedMonomer p monomer).topology.atoms).map
      (fun a => a.atom_id)).Nodup := by
    rw [hmerged_ids, List.nodup_append]
    exact ⟨hpnodup, preparedMonomer_ids_nodup p monomer, fun a ha hcon => hdisj a hcon ha⟩
  refine ⟨?_, ?_, ?_⟩
  · -- atom count bookkeeping
    have hstep1 := length_filter_not_mem_finset
      (p.topology.atoms ++ (preparedMonomer p monomer).topology.atoms)
      (discardMonomerSet (consumedMonomer p monomer tj) tj) hmerged_nodup
      (by
        intro x hx
        rw [hmerged_ids]
        exact List.mem_append_right _ (hdM_sub x hx))
    have hsub_nodup : (((p.topology.atoms ++ (preparedMonomer p monomer).topology.atoms).filter
        (fun a => decide (a.atom_id ∉ discardMonomerSet (consumedMonomer p monomer tj) tj))).map
        (fun a => a.atom_id)).Nodup :=
      List.Nodup.sublist (List.Sublist.map _ (List.filter_sublist _)) hmerged_nodup
    have hstep2 := length_filter_not_mem_finset
      ((p.topology.atoms ++ (preparedMonomer p monomer).topology.atoms).filter
        (fun a => decide (a.atom_id ∉ discardMonomerSet (consumedMonomer p monomer tj) tj)))
      (discardPolymerSet p fj) hsub_nodup
      (by
        intro x hx
        have hxp : x ∈ p.topology.atomIds := hdP_sub x hx
        rcases List.mem_map.mp hxp with ⟨a, ha, rfl⟩
        refine List.mem_map.mpr ⟨a, ?_, rfl⟩
        rw [List.mem_filter]
        refine ⟨List.mem_append_left _ ha, ?_⟩
        simp only [decide_eq_true_eq]
        intro hcon
        exact hdisj _ (hdM_sub _ hcon) (List.mem_map_of_mem _ ha))
    have hlen : (extendSuccess p (consumedMonomer p monomer tj) tj fj).topology.atoms.length =
        (((p.topology.atoms ++ (preparedMonomer p monomer).topology.atoms).filter
          (fun a => decide (a.atom_id ∉ discardMonomerSet (consumedMonomer p monomer tj) tj))).filter
          (fun a => decide (a.atom_id ∉ discardPolymerSet p fj))).length := rfl
    have hplen : (preparedMonomer p monomer).topology.atoms.length =
        monomer.topology.atoms.length := preparedMonomer_length p monomer
    rw [hlen]
    rw [List.length_append] at hstep1
    omega
  · -- the unique new bond
    have hbonds : (extendSuccess p (consumedMonomer p monomer tj) tj fj).topology.bonds =
        (((p.topology.bonds ++ (preparedMonomer p monomer).topology.bonds ++
            [Bond.mk fj.location.atom_a tj.location.atom_b 1 1 1]).filter
          (fun b => decide (b.atom_a ∉ discardMonomerSet (consumedMonomer p monomer tj) tj ∧
            b.atom_b ∉ discardMonomerSet (consumedMonomer p monomer tj) tj))).filter
          (fun b => decide (b.atom_a ∉ discardPolymerSet p fj ∧
            b.atom_b ∉ discardPolymerSet p fj))) := rfl
    rw [hbonds]
    rw [List.filter_append, List.filter_append, List.filter_append, List.filter_append,
      List.filter_append, List.filter_append]
    have hp_part : ∀ b ∈ p.topology.bonds, ¬ b.connects fj.location.atom_a tj.location.atom_b := by
      intro b hb hcon
      have hbS := hpclosed b hb
      rcases hcon with ⟨-, h2⟩ | ⟨h1, -⟩
      · exact hdisj _ htjb (h2 ▸ hbS.2)
      · exact hdisj _ htjb (h1 ▸ hbS.1)
    have hm_part : ∀ b ∈ (preparedMonomer p monomer).topology.bonds,
        ¬ b.connects fj.location.atom_a tj.location.atom_b := by
      intro b hb hcon
      have hbS := preparedMonomer_closed p monomer hmclosed b hb
      rcases hcon with ⟨h1, -⟩ | ⟨-, h2⟩
      · exact hdisj _ (h1 ▸ hbS.1) hfja
      · exact hdisj _ (h2 ▸ hbS.2) hfja
    have hclear : ∀ (l : List Bond), (∀ b ∈ l, ¬ b.connects fj.location.atom_a tj.location.atom_b) →
        ∀ (q1 q2 : Bond → Bool),
        ((l.filter q1).filter q2).filter
          (fun b => decide (b.connects fj.location.atom_a tj.location.atom_b)) = [] := by
      intro l hl q1 q2
      rw [List.filter_eq_nil]
      intro b hb
      have hbl : b ∈ l := List.mem_of_mem_filter (List.mem_of_mem_filter hb)
      simp only [decide_eq_true_eq]
      exact hl b hbl
    rw [hclear _ hp_part _ _, hclear _ hm_part _ _]
    simp [List.filter_singleton, hfja_not_dM, htjb_not_dM, hfja_not_dP, htjb_not_dP,
      Bond.connects]
  · -- the consumed junction leaves the junction set
    have hjunc : (extendSuccess p (consumedMonomer p monomer tj) tj fj).junctions =
        p.junctions.erase fj ++
          ((preparedMonomer p monomer).junctions.erase tj).map (fun j =>
            Junction.mk j.name
              (((p.topology.add (preparedMonomer p monomer).topology).get_bond
                j.location.atom_a j.location.atom_b).getD j.location)) := rfl
    rw [hjunc, List.count_append]
    have hreg : (((preparedMonomer p monomer).junctions.erase tj).map (fun j =>
        Junction.mk j.name
          (((p.topology.add (preparedMonomer p monomer).topology).get_bond
            j.location.atom_a j.location.atom_b).getD j.location))).count fj = 0 := by
      rw [List.count_eq_zero]
      intro hcon
      rcases List.mem_map.mp hcon with ⟨j, hjmem, hjeq⟩
      have hjprep : j ∈ (preparedMonomer p monomer).junctions := List.mem_of_mem_erase hjmem
      have hjprep' := hjprep
      rw [preparedMonomer_junctions] at hjprep'
      obtain ⟨j1, hj1, hj1eq⟩ := List.mem_map.mp hjprep'
      obtain ⟨hj1a, hj1b, hj1ne⟩ := hmjunc j1 hj1
      have hje := preparedMonomer_junction_endpoints p monomer hj1 hj1a hj1b hj1ne
      rw [hj1eq] at hje
      obtain ⟨hjea, hjeb, -⟩ := hje
      -- the registered junction's location endpoints are clone ids
      have hloc : fj.location.atom_a ∈ (preparedMonomer p monomer).topology.atomIds := by
        rw [← hjeq]
        rcases hgb : (p.topology.add (preparedMonomer p monomer).topology).get_bond
            j.location.atom_a j.location.atom_b with _ | bd
        · simpa [hgb] using hjea
        · obtain ⟨hbdmem, hbdcon⟩ := get_bond_eq_some hgb
          have hbdm : bd ∈ (preparedMonomer p monomer).topology.bonds := by
            rcases List.mem_append.mp hbdmem with hbp | hbm
            · exfalso
              have hbS := hpclosed bd hbp
              rcases hbdcon with ⟨h1, -⟩ | ⟨-, h2⟩
              · exact hdisj _ hjea (h1 ▸ hbS.1)
              · exact hdisj _ hjea (h2 ▸ hbS.2)
            · exact hbm
          have hbS := preparedMonomer_closed p monomer hmclosed bd hbdm
          simpa [hgb] using hbS.1
      exact hdisj _ hloc hfja
    rw [hreg]
    have hcount := List.count_erase_self fj p.junctions
    have hpos : 0 < p.junctions.count fj := List.count_pos_iff.mpr hfj_mem
    omega

lemma extendAux_eq_ok {p : Polymer} {monomer : Monomer} {fn tn : String} (pick : Nat)
    (hv : ValidInput p monomer fn tn) :
    ∃ tj fj, selectedToJunction p monomer tn = some tj ∧
      selectedFromJunction p fn pick = some fj ∧
      Polymer.extendAux p monomer fn tn pick =
        .ok (extendSuccess p (consumedMonomer p monomer tj) tj fj) := by
  obtain ⟨hne, -, -, -, -, -, -, hto, hfrom⟩ := hv
  obtain ⟨tj, htj⟩ := selectedToJunction_isSome hto
  obtain ⟨fj, hfj⟩ := @selectedFromJunction_isSome p fn pick hfrom
  refine ⟨tj, fj, htj, hfj, ?_⟩
  rw [Polymer.extendAux, if_neg (by simpa [List.isEmpty_iff] using hne), htj, hfj]

lemma extend_of_extendAux_ok {p : Polymer} {monomer : Monomer} {fn tn : String}
    {pick : Nat} {q : Polymer} (keep_charge : Bool)
    (h : Polymer.extendAux p monomer fn tn pick = .ok q) :
    Polymer.extend p monomer fn tn keep_charge pick =
      .ok (if keep_charge then
        { q with topology := q.topology.setCharge (monomer.topology.charge + p.topology.charge) }
      else q) := by
  rw [Polymer.extend, h]
  cases keep_charge with
  | false => rfl
  | true => rfl

lemma extend_of_extendAux_raised {p : Polymer} {monomer : Monomer} {fn tn : String}
    {pick : Nat} {e : PyError} {s : Polymer} (keep_charge : Bool)
    (h : Polymer.extendAux p monomer fn tn pick = .raised e s) :
    Polymer.extend p monomer fn tn keep_charge pick = .raised e s := by
  rw [Polymer.extend, h]

lemma extend_false_ok {p : Polymer} {monomer : Monomer} {fn tn : String}
    {pick : Nat} {q : Polymer}
    (h : Polymer.extendAux p monomer fn tn pick = .ok q) :
    Polymer.extend p monomer fn tn false pick = .ok q :=
  extend_of_extendAux_ok false h

lemma extend_true_ok {p : Polymer} {monomer : Monomer} {fn tn : String}
    {pick : Nat} {q : Polymer}
    (h : Polymer.extendAux p monomer fn tn pick = .ok q) :
    Polymer.extend p monomer fn tn true pick =
      .ok (Polymer.mk
        (q.topology.setCharge (monomer.topology.charge + p.topology.charge)) q.junctions) :=
  extend_of_extendAux_ok true h

lemma charge_setCharge {t : Topology} (target : ℚ) (h : t.charge ≠ 0) :
    (t.setCharge target).charge = target := by
  rw [Topology.charge]
  simp only [Topology.setCharge, List.map_map]
  have hmap : ((fun a : Atom => a.partial_charge) ∘ fun a : Atom =>
      { a with partial_charge := a.partial_charge * (target / t.charge) }) =
      fun a : Atom => a.partial_charge * (target / t.charge) := rfl
  rw [hmap, List.sum_map_mul_right]
  have hch : (t.atoms.map fun a => a.partial_charge).sum = t.charge := rfl
  rw [hch, mul_comm]
  exact div_mul_cancel₀ target h

lemma setCharge_atoms_length (t : Topology) (target : ℚ) :
    (t.setCharge target).atoms.length = t.atoms.length := by
  rw [Topology.setCharge]
  exact List.length_map _ _

lemma setCharge_bonds (t : Topology) (target : ℚ) :
    (t.setCharge target).bonds = t.bonds := rfl

/-- A computational sufficient condition for the bridge assumption: the
barrier endpoint is not reached by a search of the cut graph from the other
endpoint. -/
lemma isBridge_of_not_mem_DFS (bonds : List Bond) (x y : Nat) (S : Finset Nat) (fuel : Nat)
    (hclosed : BondsClosed (removeEdge bonds x y) S) (hx : x ∈ S) (hfuel : S.card ≤ fuel)
    (h : y ∉ Polymer.DFS (removeEdge bonds x y) none fuel x ∅) : IsBridge bonds x y :=
  fun hreach => h ((DFS_mem_iff_reachAvoid hclosed hx hfuel y).mpr hreach)

/-- C10: `Polymer.DFS` terminates on every finite topology — fuel equal to
the number of atoms suffices, i.e. the recursion depth is bounded by the
number of atoms, any larger fuel gives the same answer — and the final
visited set is exactly the barrier-excluded reachable set. -/
theorem C10_DFS_terminates_reach (t : Topology) (exclude : Option Nat) (root fuel : Nat)
    (hclosed : ∀ b ∈ t.bonds, b.atom_a ∈ t.atomIds ∧ b.atom_b ∈ t.atomIds)
    (hroot : root ∈ t.atomIds) (hfuel : t.atoms.length ≤ fuel) :
    ∀ x, x ∈ Polymer.DFS t.bonds exclude fuel root ∅ ↔ ReachAvoid t.bonds exclude root x := by
  have hclosedF : BondsClosed t.bonds t.atomIds.toFinset := fun b hb =>
    ⟨List.mem_toFinset.mpr (hclosed b hb).1, List.mem_toFinset.mpr (hclosed b hb).2⟩
  have hcard : t.atomIds.toFinset.card ≤ fuel := by
    have h1 : t.atomIds.toFinset.card ≤ t.atomIds.length := List.toFinset_card_le _
    have h2 : t.atomIds.length = t.atoms.length := by simp [Topology.atomIds]
    omega
  intro x
  exact DFS_mem_iff_reachAvoid hclosedF (List.mem_toFinset.mpr hroot) hcard x

/-- Witness for C10 at the sample polymer's two-atom topology. -/
theorem C10_DFS_terminates_reach_witness :
    ((∀ b ∈ samplePolymer.topology.bonds,
        b.atom_a ∈ samplePolymer.topology.atomIds ∧
        b.atom_b ∈ samplePolymer.topology.atomIds) ∧
      1 ∈ samplePolymer.topology.atomIds ∧
      samplePolymer.topology.atoms.length ≤ 2) ∧
    (∀ x, x ∈ Polymer.DFS samplePolymer.topology.bonds none 2 1 ∅ ↔
      ReachAvoid samplePolymer.topology.bonds none 1 x) :=
  ⟨⟨by decide, by decide, by decide⟩,
    C10_DFS_terminates_reach samplePolymer.topology none 1 2 (by decide) (by decide) (by decide)⟩

/-- C2: the two discard sets of `extend` are computed by two independent
barrier-excluded depth-first searches — monomer side rooted at
`to_junction.location.atom_a` with `atom_b` as barrier, polymer side rooted
at `from_junction.location.atom_b` with `atom_a` as barrier — and, assuming
each junction bond is a bridge, each search returns exactly the cut
fragment of its root (root included) and contains no atom of the kept
fragment (the cut fragment of the barrier atom). -/
theorem C2_discard_partition {p : Polymer} {monomer : Monomer} {fn tn : String} {pick : Nat}
    {tj fj : Junction} (hv : ValidInput p monomer fn tn)
    (htj : selectedToJunction p monomer tn = some tj)
    (hfj : selectedFromJunction p fn pick = some fj)
    (hbrM : IsBridge (preparedMonomer p monomer).topology.bonds
      tj.location.atom_a tj.location.atom_b)
    (hbrP : IsBridge p.topology.bonds fj.location.atom_b fj.location.atom_a) :
    (∀ x, x ∈ discardMonomerSet (consumedMonomer p monomer tj) tj ↔
      ReachAvoid (removeEdge (preparedMonomer p monomer).topology.bonds
        tj.location.atom_a tj.location.atom_b) none tj.location.atom_a x) ∧
    (∀ x ∈ discardMonomerSet (consumedMonomer p monomer tj) tj,
      ¬ ReachAvoid (removeEdge (preparedMonomer p monomer).topology.bonds
        tj.location.atom_a tj.location.atom_b) none tj.location.atom_b x) ∧
    (∀ x, x ∈ discardPolymerSet p fj ↔
      ReachAvoid (removeEdge p.topology.bonds
        fj.location.atom_b fj.location.atom_a) none fj.location.atom_b x) ∧
    (∀ x ∈ discardPolymerSet p fj,
      ¬ ReachAvoid (removeEdge p.topology.bonds
        fj.location.atom_b fj.location.atom_a) none fj.location.atom_a x) := by
  obtain ⟨-, -, -, hpclosed, hmclosed, hpjunc, hmjunc, -, -⟩ := hv
  obtain ⟨htj_mem, -⟩ := selectedToJunction_eq_some htj
  have htj_mem' := htj_mem
  rw [preparedMonomer_junctions] at htj_mem'
  obtain ⟨j0, hj0, htj0⟩ := List.mem_map.mp htj_mem'
  obtain ⟨hj0a, hj0b, hj0ne⟩ := hmjunc j0 hj0
  have hprepj := preparedMonomer_junction_endpoints p monomer hj0 hj0a hj0b hj0ne
  rw [htj0] at hprepj
  obtain ⟨htja, htjb, -⟩ := hprepj
  obtain ⟨hfj_mem, -⟩ := selectedFromJunction_eq_some hfj
  obtain ⟨hfja, hfjb, -⟩ := hpjunc fj hfj_mem
  have hmclosedF : BondsClosed (preparedMonomer p monomer).topology.bonds
      (preparedMonomer p monomer).topology.atomIds.toFinset := by
    intro b hb
    have h := preparedMonomer_closed p monomer hmclosed b hb
    exact ⟨List.mem_toFinset.mpr h.1, List.mem_toFinset.mpr h.2⟩
  have hpclosedF : BondsClosed p.topology.bonds p.topology.atomIds.toFinset := by
    intro b hb
    exact ⟨List.mem_toFinset.mpr (hpclosed b hb).1, List.mem_toFinset.mpr (hpclosed b hb).2⟩
  have hM : ∀ x, x ∈ discardMonomerSet (consumedMonomer p monomer tj) tj ↔
      ReachAvoid (removeEdge (preparedMonomer p monomer).topology.bonds
        tj.location.atom_a tj.location.atom_b) none tj.location.atom_a x := by
    intro x
    exact DFS_discard_eq_component hmclosedF htja hbrM x
  have hP : ∀ x, x ∈ discardPolymerSet p fj ↔
      ReachAvoid (removeEdge p.topology.bonds
        fj.location.atom_b fj.location.atom_a) none fj.location.atom_b x := by
    intro x
    exact DFS_discard_eq_component hpclosedF hfjb hbrP x
  refine ⟨hM, ?_, hP, ?_⟩
  · intro x hx hkept
    exact cut_components_disjoint hbrM ((hM x).mp hx) hkept
  · intro x hx hkept
    exact cut_components_disjoint hbrP ((hP x).mp hx) hkept

/-- Witness for C2 on the sample polymer and monomer, where both junction
bonds are bridges. -/
theorem C2_discard_partition_witness :
    (ValidInput samplePolymer sampleMonomer "A" "B" ∧
      selectedToJunction samplePolymer sampleMonomer "B" =
        some { name := "B", location := sampleBond 3 4 } ∧
      selectedFromJunction samplePolymer "A" 0 =
        some { name := "A", location := sampleBond 1 2 } ∧
      IsBridge (preparedMonomer samplePolymer sampleMonomer).topology.bonds 3 4 ∧
      IsBridge samplePolymer.topology.bonds 2 1) ∧
    ((∀ x, x ∈ discardMonomerSet
        (consumedMonomer samplePolymer sampleMonomer { name := "B", location := sampleBond 3 4 })
        { name := "B", location := sampleBond 3 4 } ↔
      ReachAvoid (removeEdge (preparedMonomer samplePolymer sampleMonomer).topology.bonds 3 4)
        none 3 x) ∧
    (∀ x ∈ discardMonomerSet
        (consumedMonomer samplePolymer sampleMonomer { name := "B", location := sampleBond 3 4 })
        { name := "B", location := sampleBond 3 4 },
      ¬ ReachAvoid (removeEdge (preparedMonomer samplePolymer sampleMonomer).topology.bonds 3 4)
        none 4 x) ∧
    (∀ x, x ∈ discardPolymerSet samplePolymer { name := "A", location := sampleBond 1 2 } ↔
      ReachAvoid (removeEdge samplePolymer.topology.bonds 2 1) none 2 x) ∧
    (∀ x ∈ discardPolymerSet samplePolymer { name := "A", location := sampleBond 1 2 },
      ¬ ReachAvoid (removeEdge samplePolymer.topology.bonds 2 1) none 1 x)) :=
  ⟨⟨by decide, by decide, by decide,
      isBridge_of_not_mem_DFS _ 3 4 {3} 1 (by decide) (by decide) (by decide) (by decide),
      isBridge_of_not_mem_DFS _ 2 1 {2} 1 (by decide) (by decide) (by decide) (by decide)⟩,
    @C2_discard_partition samplePolymer sampleMonomer "A" "B" 0
      { name := "B", location := sampleBond 3 4 } { name := "A", location := sampleBond 1 2 }
      (by decide) (by decide) (by decide)
      (isBridge_of_not_mem_DFS _ 3 4 {3} 1 (by decide) (by decide) (by decide) (by decide))
      (isBridge_of_not_mem_DFS _ 2 1 {2} 1 (by decide) (by decide) (by decide) (by decide))⟩

/-- C3: when the monomer lacks a junction named `to_junction_name`, or the
polymer lacks a junction named `from_junction_name`, `extend` raises (a
`ValueError` for the monomer side; an `IndexError` from `random.choice` on
the empty candidate list for the polymer side — the in-code `ValueError`
check there is dead code) and the polymer's topology and junction set are
exactly as before the call: no partial merge. -/
theorem C3_missing_junction_atomic (p : Polymer) (monomer : Monomer)
    (from_junction_name to_junction_name : String) (keep_charge : Bool) (pick : Nat)
    (hne : p.topology.atoms ≠ []) :
    ((∀ j ∈ monomer.junctions, j.name ≠ to_junction_name) →
      Polymer.extend p monomer from_junction_name to_junction_name keep_charge pick =
        .raised (.valueError
          ("No junction named " ++ to_junction_name ++ " found in the monomer")) p) ∧
    ((∃ j ∈ monomer.junctions, j.name = to_junction_name) →
      (∀ j ∈ p.junctions, j.name ≠ from_junction_name) →
      Polymer.extend p monomer from_junction_name to_junction_name keep_charge pick =
        .raised .indexError p) := by
  constructor
  · intro hnone
    have hfind : selectedToJunction p monomer to_junction_name = none := by
      rw [selectedToJunction, List.find?_eq_none]
      intro j hj
      rw [preparedMonomer_junctions] at hj
      rcases List.mem_map.mp hj with ⟨j1, hj1, rfl⟩
      simpa [renumJunction_name] using hnone j1 hj1
    have hAux : Polymer.extendAux p monomer from_junction_name to_junction_name pick =
        .raised (.valueError
          ("No junction named " ++ to_junction_name ++ " found in the monomer")) p := by
      rw [Polymer.extendAux, if_neg (by simpa [List.isEmpty_iff] using hne), hfind]
    exact extend_of_extendAux_raised keep_charge hAux
  · intro hto hfnone
    obtain ⟨tj, htj⟩ := selectedToJunction_isSome hto
    have hcand : fromCandidates p from_junction_name = [] := by
      rw [fromCandidates, List.filter_eq_nil]
      intro j hj
      simpa using hfnone j hj
    have hfrom : selectedFromJunction p from_junction_name pick = none := by
      rw [selectedFromJunction, hcand]
    have hAux : Polymer.extendAux p monomer from_junction_name to_junction_name pick =
        .raised .indexError p := by
      rw [Polymer.extendAux, if_neg (by simpa [List.isEmpty_iff] using hne), htj, hfrom]
    exact extend_of_extendAux_raised keep_charge hAux

/-- Witness for C3: ask the sample polymer for a junction name neither side
has. -/
theorem C3_missing_junction_atomic_witness :
    samplePolymer.topology.atoms ≠ [] ∧
    (((∀ j ∈ sampleMonomer.junctions, j.name ≠ "Z") →
      Polymer.extend samplePolymer sampleMonomer "A" "Z" false 0 =
        .raised (.valueError ("No junction named " ++ "Z" ++ " found in the monomer"))
          samplePolymer) ∧
    ((∃ j ∈ sampleMonomer.junctions, j.name = "Z") →
      (∀ j ∈ samplePolymer.junctions, j.name ≠ "A") →
      Polymer.extend samplePolymer sampleMonomer "A" "Z" false 0 =
        .raised .indexError samplePolymer)) :=
  ⟨by decide,
    C3_missing_junction_atomic samplePolymer sampleMonomer "A" "Z" false 0 (by decide)⟩

/-- C4: the prepare phase of `extend` renumbers the clone's atom ids to the
consecutive range starting strictly above the polymer's maximum atom id, its
per-element atom indexes strictly above the polymer's per-element maxima,
and the combined id list after the merge has no duplicate. -/
theorem C4_prepare_renumber (p : Polymer) (monomer : Monomer)
    (hne : p.topology.atoms ≠ []) (hpnodup : p.topology.atomIds.Nodup) :
    (preparedMonomer p monomer).topology.atomIds =
      List.range' (p.topology.maxAtomId + 1) monomer.topology.atoms.length ∧
    (∀ a ∈ p.topology.atoms, a.atom_id < p.topology.maxAtomId + 1) ∧
    (∀ ty ∈ p.topology.atomTypes, ∀ a ∈ (preparedMonomer p monomer).topology.atoms,
      a.atom_type = ty → p.topology.maxAtomIndex ty < a.atom_index) ∧
    (p.topology.atomIds ++ (preparedMonomer p monomer).topology.atomIds).Nodup := by
  refine ⟨preparedMonomer_ids p monomer, ?_, ?_, ?_⟩
  · intro a ha
    have := atom_id_le_maxAtomId ha
    omega
  · intro ty hty a ha hat
    rw [preparedMonomer, renumberIndexLoop] at ha
    have := indexLoopAux_ge p.topology p.topology.atomTypes _ ty hty a ha hat
    omega
  · rw [List.nodup_append]
    exact ⟨hpnodup, preparedMonomer_ids_nodup p monomer,
      fun a ha hcon => preparedMonomer_ids_disjoint p monomer hcon ha⟩

/-- Witness for C4 at the sample inputs. -/
theorem C4_prepare_renumber_witness :
    (samplePolymer.topology.atoms ≠ [] ∧ samplePolymer.topology.atomIds.Nodup) ∧
    ((preparedMonomer samplePolymer sampleMonomer).topology.atomIds =
      List.range' (samplePolymer.topology.maxAtomId + 1) sampleMonomer.topology.atoms.length ∧
    (∀ a ∈ samplePolymer.topology.atoms, a.atom_id < samplePolymer.topology.maxAtomId + 1) ∧
    (∀ ty ∈ samplePolymer.topology.atomTypes,
      ∀ a ∈ (preparedMonomer samplePolymer sampleMonomer).topology.atoms,
      a.atom_type = ty → samplePolymer.topology.maxAtomIndex ty < a.atom_index) ∧
    (samplePolymer.topology.atomIds ++
      (preparedMonomer samplePolymer sampleMonomer).topology.atomIds).Nodup) :=
  ⟨⟨by decide, by decide⟩,
    C4_prepare_renumber samplePolymer sampleMonomer (by decide) (by decide)⟩

/-- C1: a successful `extend` leaves the polymer with
(old atoms + monomer atoms − monomer-side discard − polymer-side discard)
atoms (stated additively), exactly one bond connecting the two retained
junction atoms, and one fewer occurrence of the consumed from-junction in
the junction set. -/
theorem C1_extend_bookkeeping {p : Polymer} {monomer : Monomer} {fn tn : String}
    {keep_charge : Bool} {pick : Nat} {tj fj : Junction} {q : Polymer}
    (hv : ValidInput p monomer fn tn)
    (htj : selectedToJunction p monomer tn = some tj)
    (hfj : selectedFromJunction p fn pick = some fj)
    (hq : Polymer.extend p monomer fn tn keep_charge pick = .ok q) :
    q.topology.atoms.length + (discardMonomerSet (consumedMonomer p monomer tj) tj).card +
        (discardPolymerSet p fj).card =
      p.topology.atoms.length + monomer.topology.atoms.length ∧
    (q.topology.bonds.filter
      (fun b => decide (b.connects fj.location.atom_a tj.location.atom_b))).length = 1 ∧
    q.junctions.count fj + 1 = p.junctions.count fj := by
  obtain ⟨tj', fj', htj', hfj', hAux⟩ := extendAux_eq_ok pick hv
  have htjeq : tj = tj' := by
    rw [htj] at htj'
    exact Option.some_inj.mp htj'
  have hfjeq : fj = fj' := by
    rw [hfj] at hfj'
    exact Option.some_inj.mp hfj'
  subst htjeq
  subst hfjeq
  obtain ⟨h1, h2, h3⟩ := extendSuccess_spec hv htj hfj
  cases keep_charge with
  | false =>
      have hex := extend_false_ok hAux
      rw [hq] at hex
      injection hex with hqeq
      subst hqeq
      exact ⟨h1, by rw [h2]; rfl, h3⟩
  | true =>
      have hex := extend_true_ok hAux
      rw [hq] at hex
      injection hex with hqeq
      subst hqeq
      refine ⟨?_, ?_, h3⟩
      · show ((extendSuccess p (consumedMonomer p monomer tj) tj fj).topology.setCharge
          (monomer.topology.charge + p.topology.charge)).atoms.length + _ + _ = _
        rw [setCharge_atoms_length]
        exact h1
      · show (((extendSuccess p (consumedMonomer p monomer tj) tj fj).topology.setCharge
          (monomer.topology.charge + p.topology.charge)).bonds.filter _).length = 1
        rw [setCharge_bonds, h2]
        rfl

/-- Witness for C1 at the sample inputs, with the resulting polymer given
explicitly as `sampleExtended`. -/
theorem C1_extend_bookkeeping_witness :
    (ValidInput samplePolymer sampleMonomer "A" "B" ∧
      Polymer.extend samplePolymer sampleMonomer "A" "B" false 0 = .ok sampleExtended) ∧
    (sampleExtended.topology.atoms.length +
        (discardMonomerSet
          (consumedMonomer samplePolymer sampleMonomer { name := "B", location := sampleBond 3 4 })
          { name := "B", location := sampleBond 3 4 }).card +
        (discardPolymerSet samplePolymer { name := "A", location := sampleBond 1 2 }).card =
      samplePolymer.topology.atoms.length + sampleMonomer.topology.atoms.length) :=
  ⟨⟨by decide, by decide⟩,
    (@C1_extend_bookkeeping samplePolymer sampleMonomer "A" "B" false 0
      { name := "B", location := sampleBond 3 4 } { name := "A", location := sampleBond 1 2 }
      sampleExtended (by decide) (by decide) (by decide) (by decide)).1⟩

/-- C6: the single new bond appended by `extend` joins the retained
polymer-side atom `from_junction.location.atom_a` to the retained
monomer-side atom `to_junction.location.atom_b` and carries the fixed
default parameters bond type 1, bond length 1, force constant 1. -/
theorem C6_new_bond_default_params {p : Polymer} {monomer : Monomer} {fn tn : String}
    {keep_charge : Bool} {pick : Nat} {tj fj : Junction} {q : Polymer}
    (hv : ValidInput p monomer fn tn)
    (htj : selectedToJunction p monomer tn = some tj)
    (hfj : selectedFromJunction p fn pick = some fj)
    (hq : Polymer.extend p monomer fn tn keep_charge pick = .ok q) :
    q.topology.bonds.filter
        (fun b => decide (b.connects fj.location.atom_a tj.location.atom_b)) =
      [Bond.mk fj.location.atom_a tj.location.atom_b 1 1 1] := by
  obtain ⟨tj', fj', htj', hfj', hAux⟩ := extendAux_eq_ok pick hv
  have htjeq : tj = tj' := by
    rw [htj] at htj'
    exact Option.some_inj.mp htj'
  have hfjeq : fj = fj' := by
    rw [hfj] at hfj'
    exact Option.some_inj.mp hfj'
  subst htjeq
  subst hfjeq
  obtain ⟨-, h2, -⟩ := extendSuccess_spec hv htj hfj
  cases keep_charge with
  | false =>
      have hex := extend_false_ok hAux
      rw [hq] at hex
      injection hex with hqeq
      subst hqeq
      exact h2
  | true =>
      have hex := extend_true_ok hAux
      rw [hq] at hex
      injection hex with hqeq
      subst hqeq
      show ((extendSuccess p (consumedMonomer p monomer tj) tj fj).topology.setCharge
        (monomer.topology.charge + p.topology.charge)).bonds.filter _ = _
      rw [setCharge_bonds]
      exact h2

/-- Witness for C6 at the sample inputs. -/
theorem C6_new_bond_default_params_witness :
    (ValidInput samplePolymer sampleMonomer "A" "B" ∧
      Polymer.extend samplePolymer sampleMonomer "A" "B" false 0 = .ok sampleExtended) ∧
    sampleExtended.topology.bonds.filter
        (fun b => decide (b.connects 1 4)) = [Bond.mk 1 4 1 1 1] :=
  ⟨⟨by decide, by decide⟩,
    @C6_new_bond_default_params samplePolymer sampleMonomer "A" "B" false 0
      { name := "B", location := sampleBond 3 4 } { name := "A", location := sampleBond 1 2 }
      sampleExtended (by decide) (by decide) (by decide) (by decide)⟩

/-- C5: with `keep_charge` set, a successful `extend` forces the final net
charge to the exact sum of the pre-merge polymer net charge and the
original monomer net charge, through the proportional-scaling setter (the
setter can only hit its target when the merged topology's pre-scaling net
charge is nonzero, since it multiplies every charge by target/current). -/
theorem C5_keep_charge_sum {p : Polymer} {monomer : Monomer} {fn tn : String}
    {pick : Nat} {q : Polymer}
    (hq : Polymer.extendAux p monomer fn tn pick = .ok q)
    (hnz : q.topology.charge ≠ 0) :
    Polymer.extend p monomer fn tn true pick =
      .ok (Polymer.mk
        (q.topology.setCharge (monomer.topology.charge + p.topology.charge)) q.junctions) ∧
    (q.topology.setCharge (monomer.topology.charge + p.topology.charge)).charge =
      p.topology.charge + monomer.topology.charge := by
  constructor
  · exact extend_true_ok hq
  · rw [charge_setCharge _ hnz, add_comm]

/-- Witness for C5 at the sample inputs: the polymer contributes net charge
3, the monomer 2, and the extension forces the final net charge to their
sum 5. -/
theorem C5_keep_charge_sum_witness :
    (Polymer.extendAux samplePolymer sampleMonomer "A" "B" 0 = .ok sampleExtended ∧
      sampleExtended.topology.charge ≠ 0) ∧
    (Polymer.extend samplePolymer sampleMonomer "A" "B" true 0 =
      .ok (Polymer.mk
        (sampleExtended.topology.setCharge
          (sampleMonomer.topology.charge + samplePolymer.topology.charge))
        sampleExtended.junctions) ∧
    (sampleExtended.topology.setCharge
        (sampleMonomer.topology.charge + samplePolymer.topology.charge)).charge =
      samplePolymer.topology.charge + sampleMonomer.topology.charge) :=
  ⟨⟨by decide, by norm_num [Topology.charge, sampleExtended, mkAtom]⟩,
    C5_keep_charge_sum (by decide) (by norm_num [Topology.charge, sampleExtended, mkAtom])⟩

/-- C7: `Polymer.from_dict` calls `cls(topology=..., junctions=...)` but
`Polymer.__init__` accepts only a `monomer` argument, so every call — in
particular the round trip `from_dict(to_dict(p))` and `load_from_file`
after `save_to_file` — raises `TypeError` instead of rebuilding the
polymer. -/
theorem C7_from_dict_type_error :
    Polymer.from_dict (Polymer.to_dict samplePolymer) = .error .typeError ∧
    ∀ data : PolymerDict, Polymer.from_dict data = .error .typeError := by
  constructor
  · rfl
  · intro data
    rfl

/-- C8: `extend` never mutates the caller-owned monomer: its observable
state after any call, successful or raised, equals its state before. -/
theorem C8_extend_monomer_frame (p : Polymer) (monomer : Monomer)
    (from_junction_name to_junction_name : String) (keep_charge : Bool) (pick : Nat) :
    monomerAfterExtend p monomer from_junction_name to_junction_name keep_charge pick =
      monomer := rfl

/-- C9: constructing a polymer from a monomer deep-copies it: the polymer
starts from the monomer's topology and junction values, and subsequent
mutation of the polymer — including an `extend` that consumes the very same
monomer — leaves the source monomer unchanged. -/
theorem C9_ofMonomer_independent (monomer : Monomer)
    (from_junction_name to_junction_name : String) (keep_charge : Bool) (pick : Nat) :
    (Polymer.ofMonomer monomer).topology = monomer.topology ∧
    (Polymer.ofMonomer monomer).junctions = monomer.junctions ∧
    monomerAfterExtend (Polymer.ofMonomer monomer) monomer
      from_junction_name to_junction_name keep_charge pick = monomer :=
  ⟨rfl, rfl, rfl⟩

end Polytop
